import Mathlib

/-!
# earth-gif: a shallow embedding of `main.go` and `giff/giff.go`

The program lists the frames of one day from a remote catalog, downloads the
PNG of every frame concurrently, writes the capture timestamp on every frame,
and encodes the frames into `earth.gif`, which a one-route server hands out.

Everything outside the two source files (the HTTP transport, the JSON decoder,
the `gg` drawing context, the dithering drawer, the GIF encoder, the operating
system's failure cases) is an oracle: a field of `Http` or of `Env`.  The code
of the two files is translated statement by statement around these oracles.
The filesystem is explicit state.  An oracle answers the same call the same
way during one call of `CreateGIF`; the network may answer every fetch task
differently (`H i` is the network as task `i` finds it).  The goroutines of the
fetch are interleaved step by step under an arbitrary schedule, and they share
the variable `err` of `main` as they do in the source.

Go `string`s are Lean `String`s, `[]byte` is `List UInt8` (the nil slice is the
empty list), `int` is `Int` (no arithmetic here comes near the 64-bit range).
-/

namespace EarthGif

/-! ## Common data -/

/-- A Go byte slice. -/
abbrev Bytes := List UInt8

/-- Go `error` values: either an error made by a library, of which only the
message is observable, or a `giff.ErrorWithInfo{Err, Info}`. -/
inductive GoError where
  | lib (msg : String)
  | ErrorWithInfo (Err : GoError) (Info : String)
deriving DecidableEq, Repr

/-- Method `Error` of an error value. For `ErrorWithInfo` it is
`fmt.Sprintf("%s: %s", ewi.Info, ewi.Err.Error())` (giff.go:23-25). -/
def GoError.Error : GoError → String
  | .lib msg => msg
  | .ErrorWithInfo err info => info ++ ": " ++ err.Error

/-- The filesystem: the content of every path, `none` when the file is absent. -/
abbrev FS := String → Option Bytes

/-- Effect of a successful `ioutil.WriteFile(path, data, perm)`: the file is
created or truncated and holds exactly `data`. -/
def writeFile (fs : FS) (path : String) (data : Bytes) : FS :=
  fun p => if p = path then some data else fs p

/-- Effect of a successful `os.OpenFile(path, os.O_WRONLY|os.O_CREATE, 0600)`:
an absent file is created empty, an existing file keeps its content (there is
no `O_TRUNC` among the flags). -/
def openCreate (fs : FS) (path : String) : FS :=
  fun p => if p = path then some ((fs p).getD []) else fs p

/-- Effect of writing `data` through a handle opened by `openCreate`: the
handle's offset starts at 0 and the file is not truncated, so `data` replaces
the first `data.length` bytes and the rest of the old content stays. -/
def writeAtStart (fs : FS) (path : String) (data : Bytes) : FS :=
  fun p => if p = path then some (data ++ ((fs p).getD []).drop data.length) else fs p

/-! ## Package `giff` -/

/-- The struct `giff.Req` (giff.go:27-32). `FontSize` is a `float64` in the
source; the only value it takes is 100. -/
structure Req where
  BgImgPath : String
  FontPath : String
  FontSize : Int
  Text : String
deriving DecidableEq, Repr

/-- The struct `gif.GIF`, with the three fields the program sets. -/
structure GIF (P : Type) where
  Image : List P
  Delay : List Int
  LoopCount : Int
deriving DecidableEq, Repr

/-- The libraries and the operating system seen from package `giff`.
`I` is `image.Image`, `C` is `*gg.Context`, `P` is `*image.Paletted`. -/
structure Env (I C P : Type) where
  /-- Whether `os.OpenFile(path, O_WRONLY|O_CREATE, 0600)` fails. -/
  OpenFileFails : String → Bool
  /-- The error of `ioutil.WriteFile(path, data, 0o644)`, if it fails. -/
  WriteFileErr : String → Bytes → Option GoError
  /-- The function `gg.LoadPNG`, as a function of the file's content (`none`: no such file). -/
  LoadPNG : Option Bytes → Except GoError I
  /-- The width `img.Bounds().Dx()`. -/
  Dx : I → Int
  /-- The height `img.Bounds().Dy()`. -/
  Dy : I → Int
  /-- The constructor `gg.NewContext(width, height)`. -/
  NewContext : Int → Int → C
  /-- The call `dc.DrawImage(im, x, y)`. -/
  DrawImage : C → I → Int → Int → C
  /-- The call `dc.LoadFontFace(path, points)`. -/
  LoadFontFace : C → String → Int → Except GoError C
  /-- The call `dc.SetColor(color.White)`. -/
  SetColorWhite : C → C
  /-- The call `dc.DrawStringWrapped(s, x, y, ax, ay, width, lineSpacing, gg.AlignCenter)`. -/
  DrawStringWrapped : C → String → Int → Int → ℚ → ℚ → Int → ℚ → C
  /-- The call `dc.Image()`. -/
  Image : C → I
  /-- The frame made by `image.NewPaletted(img.Bounds(), palette.Plan9)` followed by
  `draw.FloydSteinberg.Draw(palettedImg, bounds, img, image.ZP)`. -/
  FloydSteinberg : I → P
  /-- What `gif.EncodeAll` does once its argument checks have passed and it has
  a valid writer: the bytes that reached the file, and the error if there is one. -/
  Encode : GIF P → Bytes × Option GoError

variable {I C P : Type}

/-- The function `giff.TextOnImg` (giff.go:34-56), reading the background from `fs`. -/
def TextOnImg (E : Env I C P) (fs : FS) (req : Req) : Except GoError I :=
  match E.LoadPNG (fs req.BgImgPath) with
  | .error err => .error (.ErrorWithInfo err "TextOnImg:gg.LoadPNG")
  | .ok bgImage =>
    let imgWidth := E.Dx bgImage
    let imgHeight := E.Dy bgImage
    let dc := E.NewContext imgWidth imgHeight
    let dc := E.DrawImage dc bgImage 0 0
    match E.LoadFontFace dc req.FontPath req.FontSize with
    | .error err => .error (.ErrorWithInfo err "TextOnImg:dc.LoadFontFace")
    | .ok dc =>
      let x := imgWidth - 500
      let y := imgHeight - 80
      let maxWidth := imgWidth - 60
      let dc := E.SetColorWhite dc
      let dc := E.DrawStringWrapped dc req.Text x y (1/2) (1/2) maxWidth (3/2)
      .ok (E.Image dc)

/-- How the frame loop of `CreateGIF` ends. -/
inductive LoopResult (P : Type) where
  /-- The loop ran to its end. -/
  | done (anim : GIF P) (fs : FS)
  /-- A `return` inside the loop. -/
  | returned (err : GoError) (fs : FS)
  /-- The index expression `text[i]` was out of range. -/
  | panicked (fs : FS)

/-- The filesystem a loop result carries. -/
def LoopResult.fs {P : Type} : LoopResult P → FS
  | .done _ fs => fs
  | .returned _ fs => fs
  | .panicked fs => fs

/-- The loop `for i, v := range buf` of `CreateGIF` (giff.go:62-76), from index
`i` on, `buf` being the elements still to visit. -/
def frameLoop (E : Env I C P) (text : List String) :
    List Bytes → Nat → GIF P → FS → LoopResult P
  | [], _, anim, fs => .done anim fs
  | v :: rest, i, anim, fs =>
    match E.WriteFileErr "earth.png" v with
    | some err => .returned (.ErrorWithInfo err "CreateGIF:ioutil.WriteFile") fs
    | none =>
      let fs := writeFile fs "earth.png" v
      match text[i]? with
      | none => .panicked fs
      | some t =>
        match TextOnImg E fs ⟨"earth.png", "Helvetica.ttf", 100, t⟩ with
        | .error err => .returned err fs
        | .ok img =>
          let palettedImg := E.FloydSteinberg img
          frameLoop E text rest (i + 1)
            { anim with Image := anim.Image ++ [palettedImg], Delay := anim.Delay ++ [50] } fs

/-- The function `gif.EncodeAll(f, &anim)`: the two argument checks of the
standard library come first and write nothing; a nil `f` (the open failed and
its error was dropped) makes every write fail; otherwise the encoder runs. -/
def EncodeAll (E : Env I C P) (opened : Bool) (g : GIF P) : Bytes × Option GoError :=
  if g.Image.length = 0 then ([], some (.lib "gif: must provide at least one image"))
  else if g.Image.length ≠ g.Delay.length then
    ([], some (.lib "gif: mismatched image and delay lengths"))
  else if !opened then ([], some (.lib "invalid argument"))
  else E.Encode g

/-- How a call of `CreateGIF` ends. -/
inductive Status where
  /-- The function returned this error (`none` is `nil`). -/
  | returned (err : Option GoError)
  /-- The function panicked. -/
  | panicked
deriving DecidableEq, Repr

/-- What a call of `CreateGIF` leaves behind: how it ended, the filesystem, and
the animation passed to `gif.EncodeAll` when the call got that far. -/
structure Outcome (P : Type) where
  status : Status
  fs : FS
  encoded : Option (GIF P)

/-- The function `giff.CreateGIF` (giff.go:58-82). The encoder's bytes reach
`earth.gif` only through an opened file; with a nil `f` nothing is written
and no file is created. -/
def CreateGIF (E : Env I C P) (buf : List Bytes) (text : List String) (fs : FS) : Outcome P :=
  let opened := !E.OpenFileFails "earth.gif"
  let fs := if opened then openCreate fs "earth.gif" else fs
  let anim : GIF P := { Image := [], Delay := [], LoopCount := buf.length }
  match frameLoop E text buf 0 anim fs with
  | .returned err fs => ⟨.returned (some err), fs, none⟩
  | .panicked fs => ⟨.panicked, fs, none⟩
  | .done anim fs =>
    match EncodeAll E opened anim with
    | (written, some encodeErr) =>
      ⟨.returned (some (.ErrorWithInfo encodeErr "CreateGIF:gif.EncodeAll")),
        if opened then writeAtStart fs "earth.gif" written else fs, some anim⟩
    | (written, none) =>
      ⟨.returned none, if opened then writeAtStart fs "earth.gif" written else fs, some anim⟩

/-! ## Package `main`: the catalog client -/

/-- The struct `ImgData` (main.go:27-31). -/
structure ImgData where
  Image : String
  Date : String
  Bytes : Bytes
deriving DecidableEq, Repr

/-- An HTTP response as the program reads it: the status code, which no line of
the program looks at, and the result of `ioutil.ReadAll(res.Body)`. -/
structure Response where
  StatusCode : Nat
  Body : Except GoError Bytes

/-- The network and the JSON decoder seen from package `main`. -/
structure Http where
  /-- The error of `http.NewRequest(http.MethodGet, url, nil)`, if it fails. -/
  NewRequestErr : String → Option GoError
  /-- The call `client.Do(req)`, by the request's URL and its Content-Type header. -/
  Do : String → String → Except GoError Response
  /-- The call `json.Unmarshal(body, &slice)` into a slice of `ImgData`. -/
  Unmarshal : Bytes → Except GoError (List ImgData)

/-- The package variable `baseURL` (main.go:22). -/
def baseURL : String := "https://api.nasa.gov/EPIC/api/natural"

/-- The statements the three catalog operations share: build a GET request for
`url`, set its Content-Type, send it, read the whole body (main.go:150-169,
182-201, 214-233). -/
def get (H : Http) (url contentType : String) : Except GoError Bytes :=
  match H.NewRequestErr url with
  | some err => .error err
  | none =>
    match H.Do url contentType with
    | .error err => .error err
    | .ok res =>
      match res.Body with
      | .error err => .error err
      | .ok body => .ok body

/-- The function `GetImgNames` (main.go:144-177). -/
def GetImgNames (H : Http) (key date : String) : Except GoError (List ImgData) :=
  let date := if date ≠ "" then "/date/" ++ date else date
  let url := baseURL ++ date ++ "?api_key=" ++ key
  match get H url "application/json" with
  | .error err => .error err
  | .ok body =>
    match H.Unmarshal body with
    | .error err => .error err
    | .ok imgSlice => .ok imgSlice

/-- The function `GetAllDates` (main.go:179-209). -/
def GetAllDates (H : Http) (key : String) : Except GoError (List ImgData) :=
  let url := baseURL ++ "/all?api_key=" ++ key
  match get H url "application/json" with
  | .error err => .error err
  | .ok body =>
    match H.Unmarshal body with
    | .error err => .error err
    | .ok datesSlice => .ok datesSlice

/-- The function `GetPNG` (main.go:211-236). -/
def GetPNG (H : Http) (key png date : String) : Except GoError Bytes :=
  let url := "https://api.nasa.gov/EPIC/archive/natural/" ++ date ++ "/png/" ++ png
    ++ ".png?api_key=" ++ key
  match get H url "image/png" with
  | .error err => .error err
  | .ok body => .ok body

/-! ## Package `main`: string helpers of the standard library -/

/-- Worker of `Split`: the pieces of the remaining characters, `skip` being the
number of characters of a separator just matched that are still to pass. -/
def splitFrom (sep : List Char) : List Char → Nat → List (List Char)
  | [], _ => [[]]
  | _ :: cs, skip + 1 => splitFrom sep cs skip
  | c :: cs, 0 =>
    if sep.isPrefixOf (c :: cs) then [] :: splitFrom sep cs (sep.length - 1)
    else
      match splitFrom sep cs 0 with
      | [] => [[c]]
      | piece :: pieces => (c :: piece) :: pieces

/-- The function `strings.Split(s, sep)` for a non-empty `sep`: the pieces of `s`
between the occurrences of `sep`, found left to right without overlap. -/
def Split (s sep : String) : List String :=
  (splitFrom sep.data s.data 0).map String.mk

/-- Worker of `ReplaceAll`, with the same `skip` as `splitFrom`. -/
def replaceFrom (old new : List Char) : List Char → Nat → List Char
  | [], _ => []
  | _ :: cs, skip + 1 => replaceFrom old new cs skip
  | c :: cs, 0 =>
    if old.isPrefixOf (c :: cs) then new ++ replaceFrom old new cs (old.length - 1)
    else c :: replaceFrom old new cs 0

/-- The function `strings.ReplaceAll(s, old, new)` for a non-empty `old`. -/
def ReplaceAll (s old new : String) : String :=
  String.mk (replaceFrom old.data new.data s.data 0)

/-- The function `strings.TrimRight(s, "\n")`: `s` without its trailing newlines. -/
def TrimRightNewline (s : String) : String :=
  String.mk (s.data.reverse.dropWhile (fun c => c == '\n')).reverse

/-- The comparison `a < b` of two Go strings, on their characters. Go compares
bytes; on UTF-8 the order of the bytes is the order of the code points. -/
def lessChars : List Char → List Char → Bool
  | _, [] => false
  | [], _ :: _ => true
  | a :: as, b :: bs => if a < b then true else if b < a then false else lessChars as bs

/-- The index expression `xs[j]` for a Go `int` `j`; `none` is the run-time panic
"index out of range". -/
def index {α : Type} (xs : List α) (j : Int) : Option α :=
  if j < 0 then none else xs[j.toNat]?

/-! ## Package `main`: the date fallback -/

/-- How the date selection of `main` (main.go:69-92) ends. -/
inductive Selection where
  /-- The loop was left with this value in `*date`. -/
  | date (d : String)
  /-- The call `log.Fatal(err)` after a failed read of the standard input. -/
  | fatal (msg : String)
  /-- An index expression was out of range. -/
  | panicked
deriving DecidableEq, Repr

/-- The loop `for { ... }` (main.go:74-89). `stdin` lists what the successive
calls `buf.ReadBytes('\n')` return; past its end the input is at end of file. -/
def prompt (dates : List ImgData) (i : Nat) (v : ImgData) :
    List (String × Option GoError) → Selection
  | [] => .fatal "EOF"
  | (bytes, err) :: more =>
    let choice := TrimRightNewline bytes
    match err with
    | some err => .fatal err.Error
    | none =>
      if choice = "0" then
        match index dates ((i : Int) - 1) with
        | none => .panicked
        | some prev => .date prev.Date
      else if choice = "1" then .date v.Date
      else prompt dates i v more

/-- The loop `for i, v := range dates` (main.go:69-92) from index `i` on. The
two options are printed by `fmt.Printf` before the prompt, which evaluates
`dates[i-1].Date`. -/
def selectFrom (dates : List ImgData) (date : String) (stdin : List (String × Option GoError)) :
    List ImgData → Nat → Selection
  | [], _ => .date date
  | v :: rest, i =>
    if v.Date = date then .date date
    else if lessChars v.Date.data date.data then
      match index dates ((i : Int) - 1) with
      | none => .panicked
      | some _ => prompt dates i v stdin
    else selectFrom dates date stdin rest (i + 1)

/-- The date selection of `main` once `GetAllDates` has returned `dates`. -/
def selectDate (dates : List ImgData) (date : String) (stdin : List (String × Option GoError)) :
    Selection :=
  selectFrom dates date stdin dates 0

/-! ## Package `main`: the concurrent fetch and the pipeline -/

/-- The type set `string | []byte` of `FieldSlice` with its two conversions
`T(f.String())` and `T(f.Bytes())`. -/
class FieldType (T : Type) where
  /-- The conversion `T(s)` of a string. -/
  ofString : String → T
  /-- The conversion `T(b)` of a byte slice. -/
  ofBytes : Bytes → T

instance : FieldType Bytes where
  ofString := fun s => s.toUTF8.data.toList
  ofBytes := fun b => b

/-- For a `string` the conversion of bytes is exact on valid UTF-8, the only
byte sequences a Lean `String` can hold; the program never uses it. -/
instance : FieldType String where
  ofString := fun s => s
  ofBytes := fun b => (String.fromUTF8? ⟨b.toArray⟩).getD ""

/-- The loop of `FieldSlice` (main.go:35-45) with `slice` built so far. The
`return nil` of an unknown field name is the empty list. -/
def fieldLoop {T : Type} [FieldType T] (fieldName : String) : List ImgData → List T → List T
  | [], slice => slice
  | v :: rest, slice =>
    if fieldName = "Date" then fieldLoop fieldName rest (slice ++ [FieldType.ofString v.Date])
    else if fieldName = "Bytes" then fieldLoop fieldName rest (slice ++ [FieldType.ofBytes v.Bytes])
    else []

/-- The function `FieldSlice` (main.go:33-47). -/
def FieldSlice (T : Type) [FieldType T] (imgs : List ImgData) (fieldName : String) : List T :=
  fieldLoop fieldName imgs []

/-- The date argument of the frame fetch (main.go:104):
`strings.ReplaceAll(strings.Split(im.Date, " ")[0], "-", "/")`. `Split` with a
non-empty separator returns at least one piece. -/
def dateArg (date : String) : String :=
  ReplaceAll ((Split date " ").headD "") "-" "/"

/-- The two results of a call of `GetPNG` as Go returns them: the body and a
nil error, or a nil slice and the error. -/
def results (r : Except GoError Bytes) : Bytes × Option GoError :=
  match r with
  | .ok body => (body, none)
  | .error err => ([], some err)

/-- The call of main.go:104 for the record `im`:
`GetPNG(key, im.Image, strings.ReplaceAll(strings.Split(im.Date, " ")[0], "-", "/"))`. -/
def fetchCall (H : Http) (key : String) (im : ImgData) : Bytes × Option GoError :=
  results (GetPNG H key im.Image (dateArg im.Date))

/-- Where one goroutine of main.go:103-109 stands. The assignment of line 104
stores its two results one after the other, left to right. -/
inductive Goroutine where
  /-- Nothing is run yet. -/
  | ready
  /-- The call `GetPNG` has returned `body, err`; nothing is stored yet. -/
  | returned (body : Bytes) (err : Option GoError)
  /-- The field `im.Bytes` is assigned; the variable `err` is still to be assigned. -/
  | storedBytes (err : Option GoError)
  /-- Both results are assigned; the test `err != nil` is still to come. -/
  | storedErr
  /-- The call `wg.Done()` is made. -/
  | done
deriving DecidableEq, Repr

/-- The number of steps a goroutine has taken. -/
def Goroutine.rank : Goroutine → Nat
  | .ready => 0
  | .returned _ _ => 1
  | .storedBytes _ => 2
  | .storedErr => 3
  | .done => 4

/-- The state of the fetch phase: for every index `i` the record `imgs[i]`
points to and where goroutine `i` stands; the variable `err` of `main`
(main.go:95), which every goroutine assigns and tests; and the goroutines that
have called `wg.Done()`, in the order of their calls. -/
structure FetchState where
  tasks : List (ImgData × Goroutine)
  err : Option GoError
  finished : List Nat
deriving DecidableEq, Repr

/-- The records `imgs` points to. -/
def FetchState.imgs (st : FetchState) : List ImgData :=
  st.tasks.map (fun t => t.1)

/-- The state when the loop of main.go:101-110 has started every goroutine:
`err` is nil, since `GetImgNames` has succeeded. -/
def initFetch (imgs : List ImgData) : FetchState :=
  { tasks := imgs.map (fun im => (im, Goroutine.ready)), err := none, finished := [] }

/-- One step of goroutine `i` (main.go:104-108); `H i` is the network as
goroutine `i` finds it. A failed test is `log.Fatal(err)`, the end of the
process. A goroutine that is done, or an index without goroutine, does nothing. -/
def step (H : Nat → Http) (key : String) (i : Nat) (st : FetchState) :
    Except GoError FetchState :=
  match st.tasks[i]? with
  | none => .ok st
  | some (im, .ready) =>
    let r := fetchCall (H i) key im
    .ok { st with tasks := st.tasks.set i (im, .returned r.1 r.2) }
  | some (im, .returned body err) =>
    .ok { st with tasks := st.tasks.set i ({ im with Bytes := body }, .storedBytes err) }
  | some (im, .storedBytes err) =>
    .ok { st with tasks := st.tasks.set i (im, .storedErr), err := err }
  | some (im, .storedErr) =>
    match st.err with
    | some err => .error err
    | none => .ok { st with tasks := st.tasks.set i (im, .done), finished := st.finished ++ [i] }
  | some (_, .done) => .ok st

/-- The goroutines run interleaved: `sched` names, step by step, the goroutine
that takes the next step. -/
def runSchedule (H : Nat → Http) (key : String) : List Nat → FetchState →
    Except GoError FetchState
  | [], st => .ok st
  | i :: sched, st =>
    match step H key i st with
    | .error err => .error err
    | .ok st => runSchedule H key sched st

/-- How a run of the pipeline ends. -/
inductive Exit where
  /-- The call `log.Fatal(err)`. -/
  | fatal (msg : String)
  /-- A run-time panic. -/
  | panicked
  /-- The schedule has ended with `main` still in `wg.Wait()`. -/
  | blocked
  /-- The pipeline is through and the server is started. -/
  | serving
deriving DecidableEq, Repr

/-- What a run of the pipeline leaves behind. -/
structure Run (P : Type) where
  exit : Exit
  fs : FS
  encoded : Option (GIF P)

/-- The end of `main` once `CreateGIF` has returned (main.go:120-127). -/
def afterCreate (out : Outcome P) : Run P :=
  match out.status with
  | .returned (some err) => ⟨.fatal err.Error, out.fs, out.encoded⟩
  | .panicked => ⟨.panicked, out.fs, out.encoded⟩
  | .returned none => ⟨.serving, out.fs, out.encoded⟩

/-- The function `main` from the catalog query on (main.go:95-127): `H0` is the
network for the catalog query, `H i` for the fetch of frame `i`, `sched` the
interleaving of the goroutines. The call `wg.Wait()` returns when as many
goroutines have called `wg.Done()` as were added. -/
def pipeline (H0 : Http) (H : Nat → Http) (E : Env I C P) (key date : String)
    (sched : List Nat) (fs : FS) : Run P :=
  match GetImgNames H0 key date with
  | .error err => ⟨.fatal err.Error, fs, none⟩
  | .ok imgs =>
    match runSchedule H key sched (initFetch imgs) with
    | .error err => ⟨.fatal err.Error, fs, none⟩
    | .ok st =>
      if st.finished.length = imgs.length then
        afterCreate (CreateGIF E (FieldSlice Bytes st.imgs "Bytes")
          (FieldSlice String st.imgs "Date") fs)
      else ⟨.blocked, fs, none⟩

/-- The function `gifHandler` (main.go:134-142): the status and the body of the
response. A missing file is the read error modelled. -/
def gifHandler (fs : FS) : Nat × Bytes :=
  match fs "earth.gif" with
  | none => (500, "open earth.gif: no such file or directory\n".toUTF8.data.toList)
  | some bytes => (200, bytes)

/-- The filesystem once line 59 of giff.go has run: `earth.gif` is there when the
open succeeded, with the content it had. -/
def afterOpen (E : Env I C P) (fs : FS) : FS :=
  if !E.OpenFileFails "earth.gif" then openCreate fs "earth.gif" else fs

/-- The animation `gif.GIF{LoopCount: len(buf)}` the frame loop starts from. -/
def emptyAnim (P : Type) (buf : List Bytes) : GIF P :=
  { Image := [], Delay := [], LoopCount := buf.length }

/-- The four operation names `giff` wraps its errors with. -/
def operationNames : List String :=
  ["TextOnImg:gg.LoadPNG", "TextOnImg:dc.LoadFontFace", "CreateGIF:ioutil.WriteFile",
    "CreateGIF:gif.EncodeAll"]

/-- A PNG file of one black pixel. -/
def blackPNG : Bytes :=
  [137, 80, 78, 71, 13, 10, 26, 10, 0, 0, 0, 13, 73, 72, 68, 82, 0, 0, 0, 1, 0, 0, 0, 1, 8, 2,
    0, 0, 0, 144, 119, 83, 222, 0, 0, 0, 12, 73, 68, 65, 84, 120, 218, 99, 96, 96, 96, 0, 0, 0,
    4, 0, 1, 200, 234, 235, 249, 0, 0, 0, 0, 73, 69, 78, 68, 174, 66, 96, 130]

/-- A PNG file of one white pixel. -/
def whitePNG : Bytes :=
  [137, 80, 78, 71, 13, 10, 26, 10, 0, 0, 0, 13, 73, 72, 68, 82, 0, 0, 0, 1, 0, 0, 0, 1, 8, 2,
    0, 0, 0, 144, 119, 83, 222, 0, 0, 0, 12, 73, 68, 65, 84, 120, 218, 99, 248, 255, 255, 63, 0,
    5, 254, 2, 254, 51, 18, 149, 20, 0, 0, 0, 0, 73, 69, 78, 68, 174, 66, 96, 130]

/-- The buffers of the evaluation runs. -/
def demoBuf : List Bytes := [blackPNG, whitePNG]

/-- The captions of the evaluation runs. -/
def demoText : List String := ["2022-01-01 00:00:00", "2022-01-01 00:10:00"]

/-- A filesystem holding only `earth.gif`, with content `old`. -/
def onlyGif (old : Bytes) : FS :=
  fun p => if p = "earth.gif" then some old else none

/-- The wrapped error `err` under the name `info` comes from the operation of
that name: the named library call returned `err` (for the file write, on one
of the buffers of `buf`). -/
def OperationFailed (E : Env I C P) (buf : List Bytes) (info : String) (err : GoError) : Prop :=
  (info = "TextOnImg:gg.LoadPNG" ∧ ∃ content, E.LoadPNG content = .error err) ∨
  (info = "TextOnImg:dc.LoadFontFace" ∧ ∃ dc path size, E.LoadFontFace dc path size = .error err) ∨
  (info = "CreateGIF:ioutil.WriteFile" ∧ ∃ v ∈ buf, E.WriteFileErr "earth.png" v = some err) ∨
  (info = "CreateGIF:gif.EncodeAll" ∧ ∃ opened g, (EncodeAll E opened g).2 = some err)

/-- The record of a goroutine and where it stands, `im0` being the record at the
start and `r` what the goroutine's call of `GetPNG` returns. -/
def Rel (r : Bytes × Option GoError) (im0 im : ImgData) : Goroutine → Prop
  | .ready => im = im0
  | .returned body err => im = im0 ∧ (body, err) = r
  | .storedBytes err => im = { im0 with Bytes := r.1 } ∧ err = r.2
  | .storedErr => im = { im0 with Bytes := r.1 }
  | .done => im = { im0 with Bytes := r.1 }

/-- The invariant of the fetch phase started on the records `imgs0`: one task
per record, every record as its own goroutine has left it, and `finished`
names each goroutine that is done, once. -/
def Inv (H : Nat → Http) (key : String) (imgs0 : List ImgData) (st : FetchState) : Prop :=
  st.tasks.length = imgs0.length ∧
  (∀ i im0, imgs0[i]? = some im0 →
    ∃ im g, st.tasks[i]? = some (im, g) ∧ Rel (fetchCall (H i) key im0) im0 im g) ∧
  st.finished.Nodup ∧
  (∀ i, i ∈ st.finished ↔ ∃ im, st.tasks[i]? = some (im, Goroutine.done))

/-- The schedule in which the goroutines run one after the other, each to its
end, in the order `order`. -/
def atomicSchedule (order : List Nat) : List Nat :=
  order.flatMap (fun i => [i, i, i, i])

/-- The URL `GetPNG` builds (main.go:212). -/
def pngURL (key png date : String) : String :=
  "https://api.nasa.gov/EPIC/archive/natural/" ++ date ++ "/png/" ++ png ++ ".png?api_key=" ++ key

/-- A string of decimal digits of length `n`. -/
def IsDigits (n : Nat) (s : String) : Prop :=
  s.data.length = n ∧ ∀ c ∈ s.data, c.isDigit = true

/-- The catalog's form "YYYY-MM-DD hh:mm:ss" of a timestamp, by its six fields. -/
def CatalogForm (Y M D hh mm ss : String) : Prop :=
  IsDigits 4 Y ∧ IsDigits 2 M ∧ IsDigits 2 D ∧ IsDigits 2 hh ∧ IsDigits 2 mm ∧ IsDigits 2 ss

/-- The timestamp made of six fields. -/
def timestamp (Y M D hh mm ss : String) : String :=
  Y ++ "-" ++ M ++ "-" ++ D ++ " " ++ hh ++ ":" ++ mm ++ ":" ++ ss

/-- A status code of the class 2xx. -/
def is2xx (status : Nat) : Bool :=
  200 ≤ status && status < 300

/-! ## A concrete environment for evaluation -/

/-- The number a list of bytes spells, most significant byte first. -/
def bigEndian (bs : Bytes) : Nat :=
  bs.foldl (fun acc b => acc * 256 + b.toNat) 0

/-- The two bytes of a 16-bit number, least significant first. -/
def littleEndian16 (n : Nat) : Bytes :=
  [UInt8.ofNat (n % 256), UInt8.ofNat (n / 256 % 256)]

/-- The eight bytes every PNG file starts with. -/
def pngSignature : Bytes := [137, 80, 78, 71, 13, 10, 26, 10]

/-- A stand-in for the libraries, for evaluation. An image is the content of its
file together with the captions drawn on it. A file decodes when it starts with
the PNG signature, and its size is read from its header chunk. The encoder
writes the blocks of a GIF file in the sizes of the library's encoder (header,
screen descriptor, loop extension for more than one frame, then per frame a
graphic control extension, an image descriptor, a colour table of 256 entries
and the pixel data, and the trailer), with zeros for the colour table and the
first byte of the frame's file for the pixel data. -/
def demoEnv : Env (Bytes × List String) (Bytes × List String) (Bytes × List String) where
  OpenFileFails := fun _ => false
  WriteFileErr := fun _ _ => none
  LoadPNG := fun
    | some content =>
      if content.take 8 = pngSignature then .ok (content, [])
      else .error (.lib "png: invalid format: not a PNG file")
    | none => .error (.lib "open earth.png: no such file or directory")
  Dx := fun img => bigEndian ((img.1.drop 16).take 4)
  Dy := fun img => bigEndian ((img.1.drop 20).take 4)
  NewContext := fun _ _ => ([], [])
  DrawImage := fun _ im _ _ => im
  LoadFontFace := fun dc _ _ => .ok dc
  SetColorWhite := fun dc => dc
  DrawStringWrapped := fun dc s _ _ _ _ _ _ => (dc.1, dc.2 ++ [s])
  Image := fun dc => dc
  FloydSteinberg := fun img => img
  Encode := fun g =>
    ([71, 73, 70, 56, 57, 97] ++ [1, 0, 1, 0, 0, 0, 0]
      ++ (if 1 < g.Image.length then
            [33, 255, 11, 78, 69, 84, 83, 67, 65, 80, 69, 50, 46, 48, 3, 1]
              ++ littleEndian16 g.LoopCount.toNat ++ [0]
          else [])
      ++ (g.Image.map (fun p =>
            [33, 249, 4, 0, 50, 0, 0, 0] ++ [44, 0, 0, 0, 0, 1, 0, 1, 0, 135]
              ++ List.replicate 768 0 ++ [8, 2, p.1.headD 0, 1, 0])).flatten
      ++ [59], none)

/-- A test network: every frame request is answered with status `status` and
body `body`, the catalog query with a body the decoder maps to `imgs`. -/
def demoHttp (status : Nat) (body : Bytes) (imgs : List ImgData) : Http where
  NewRequestErr := fun _ => none
  Do := fun _ contentType =>
    if contentType = "image/png" then .ok ⟨status, .ok body⟩ else .ok ⟨200, .ok [91, 93]⟩
  Unmarshal := fun _ => .ok imgs

/-- The descriptors of the evaluation runs. -/
def demoImgs : List ImgData :=
  [⟨"A", "2022-01-01 00:00:00", []⟩, ⟨"B", "2022-01-01 00:10:00", []⟩]

/-- A test network for the frame fetches: task 0 receives the black pixel,
every other task the white one, with status `status`. -/
def demoNet (status : Nat) (i : Nat) : Http :=
  demoHttp status (if i = 0 then blackPNG else whitePNG) demoImgs

/-- A test network in which the fetch of frame 0 fails in the transport and
every other fetch succeeds. -/
def lossyNet (i : Nat) : Http :=
  if i = 0 then
    { NewRequestErr := fun _ => none
      Do := fun _ _ => .error (.lib "dial tcp: i/o timeout")
      Unmarshal := fun _ => .ok demoImgs }
  else demoNet 200 i

/-- The state of the fetch phase in which both evaluation frames are fetched
and goroutine 1 has called `wg.Done()` before goroutine 0. -/
def demoFinal : FetchState :=
  { tasks := [(⟨"A", "2022-01-01 00:00:00", blackPNG⟩, .done),
      (⟨"B", "2022-01-01 00:10:00", whitePNG⟩, .done)],
    err := none, finished := [1, 0] }

/-- The state of the fetch phase in which the fetch of frame 0 has failed,
record 0 holds a nil `Bytes`, and both goroutines are done. -/
def maskedFinal : FetchState :=
  { tasks := [(⟨"A", "2022-01-01 00:00:00", []⟩, .done),
      (⟨"B", "2022-01-01 00:10:00", whitePNG⟩, .done)],
    err := none, finished := [0, 1] }

/-! ## Lemmas on the filesystem -/

theorem writeFile_same (fs : FS) (path : String) (data : Bytes) :
    writeFile fs path data path = some data := by
  simp [writeFile]

theorem writeFile_other (fs : FS) (path q : String) (data : Bytes) (h : q ≠ path) :
    writeFile fs path data q = fs q := by
  simp [writeFile, h]

theorem openCreate_of_some (fs : FS) (path : String) (old : Bytes) (h : fs path = some old) :
    openCreate fs path path = some old := by
  simp [openCreate, h]

/-! ## Lemmas on `TextOnImg` and the frame loop -/

/-- The function `TextOnImg` reads the filesystem at the background path only. -/
theorem TextOnImg_congr (E : Env I C P) (fs fs0 : FS) (req : Req)
    (h : fs req.BgImgPath = fs0 req.BgImgPath) : TextOnImg E fs req = TextOnImg E fs0 req := by
  unfold TextOnImg
  rw [h]

/-- Every error of `TextOnImg` is an `ErrorWithInfo` naming the call that failed. -/
theorem TextOnImg_error (E : Env I C P) (fs : FS) (req : Req) (e : GoError)
    (h : TextOnImg E fs req = .error e) :
    ∃ err, (e = .ErrorWithInfo err "TextOnImg:gg.LoadPNG" ∧
        E.LoadPNG (fs req.BgImgPath) = .error err) ∨
      (e = .ErrorWithInfo err "TextOnImg:dc.LoadFontFace" ∧
        ∃ dc, E.LoadFontFace dc req.FontPath req.FontSize = .error err) := by
  unfold TextOnImg at h
  split at h
  · rename_i err hload
    injection h with h
    exact ⟨err, Or.inl ⟨h.symm, hload⟩⟩
  · dsimp only at h
    split at h
    · rename_i err hfont
      injection h with h
      exact ⟨err, Or.inr ⟨h.symm, _, hfont⟩⟩
    · cases h

/-- A background that does not decode makes `TextOnImg` fail. -/
theorem TextOnImg_of_LoadPNG_error (E : Env I C P) (fs : FS) (req : Req) (err : GoError)
    (h : E.LoadPNG (fs req.BgImgPath) = .error err) :
    TextOnImg E fs req = .error (.ErrorWithInfo err "TextOnImg:gg.LoadPNG") := by
  unfold TextOnImg
  rw [h]

/-- What a successful `TextOnImg` has drawn: the decoded background, then the
text of the request, white, wrapped and centred at the fixed offsets. -/
theorem TextOnImg_ok (E : Env I C P) (fs : FS) (req : Req) (img : I)
    (h : TextOnImg E fs req = .ok img) :
    ∃ bg dc, E.LoadPNG (fs req.BgImgPath) = .ok bg ∧
      E.LoadFontFace (E.DrawImage (E.NewContext (E.Dx bg) (E.Dy bg)) bg 0 0)
        req.FontPath req.FontSize = .ok dc ∧
      img = E.Image (E.DrawStringWrapped (E.SetColorWhite dc) req.Text
        (E.Dx bg - 500) (E.Dy bg - 80) (1/2) (1/2) (E.Dx bg - 60) (3/2)) := by
  unfold TextOnImg at h
  split at h
  · cases h
  · rename_i bg hbg
    dsimp only at h
    split at h
    · cases h
    · rename_i dc hdc
      injection h with h
      exact ⟨bg, dc, hbg, hdc, h.symm⟩

/-- One pass of the loop body that reaches the two `append`s. -/
theorem frameLoop_cons_ok (E : Env I C P) (text : List String) (v : Bytes) (rest : List Bytes)
    (i : Nat) (anim : GIF P) (fs : FS) (t : String) (img : I)
    (hw : E.WriteFileErr "earth.png" v = none) (ht : text[i]? = some t)
    (himg : TextOnImg E (writeFile fs "earth.png" v) ⟨"earth.png", "Helvetica.ttf", 100, t⟩
      = .ok img) :
    frameLoop E text (v :: rest) i anim fs =
      frameLoop E text rest (i + 1)
        { anim with Image := anim.Image ++ [E.FloydSteinberg img], Delay := anim.Delay ++ [50] }
        (writeFile fs "earth.png" v) := by
  simp only [frameLoop, hw, ht, himg]

/-- A completed pass of the loop body, read backwards. -/
theorem frameLoop_cons_done (E : Env I C P) (text : List String) (v : Bytes) (rest : List Bytes)
    (i : Nat) (anim g : GIF P) (fs fs' : FS)
    (h : frameLoop E text (v :: rest) i anim fs = .done g fs') :
    ∃ t img, E.WriteFileErr "earth.png" v = none ∧ text[i]? = some t ∧
      TextOnImg E (writeFile fs "earth.png" v) ⟨"earth.png", "Helvetica.ttf", 100, t⟩ = .ok img ∧
      frameLoop E text rest (i + 1)
        { anim with Image := anim.Image ++ [E.FloydSteinberg img], Delay := anim.Delay ++ [50] }
        (writeFile fs "earth.png" v) = .done g fs' := by
  simp only [frameLoop] at h
  split at h
  · cases h
  · rename_i hw
    split at h
    · cases h
    · rename_i t ht
      split at h
      · cases h
      · rename_i img himg
        exact ⟨t, img, hw, ht, himg, h⟩

/-- What a completed frame loop has done to the animation. -/
theorem frameLoop_done (E : Env I C P) (text : List String) :
    ∀ (vs : List Bytes) (i : Nat) (anim g : GIF P) (fs fs' : FS),
      frameLoop E text vs i anim fs = .done g fs' →
      g.LoopCount = anim.LoopCount ∧
      g.Delay = anim.Delay ++ List.replicate vs.length 50 ∧
      ∃ added : List P, g.Image = anim.Image ++ added ∧ added.length = vs.length ∧
        ∀ (k : Nat) (v : Bytes) (t : String), vs[k]? = some v → text[i + k]? = some t →
          ∀ fs0 : FS, fs0 "earth.png" = some v →
            ∃ img, TextOnImg E fs0 ⟨"earth.png", "Helvetica.ttf", 100, t⟩ = .ok img ∧
              added[k]? = some (E.FloydSteinberg img) := by
  intro vs
  induction vs with
  | nil =>
    intro i anim g fs fs' h
    simp only [frameLoop] at h
    injection h with h1 h2
    subst h1
    exact ⟨rfl, by simp, [], by simp, rfl, by simp⟩
  | cons v rest ih =>
    intro i anim g fs fs' h
    obtain ⟨t, img, _, ht, himg, hrest⟩ := frameLoop_cons_done E text v rest i anim g fs fs' h
    obtain ⟨hl, hd, added, hadd, hlen, hfr⟩ := ih _ _ _ _ _ hrest
    refine ⟨hl, ?_, E.FloydSteinberg img :: added, ?_, ?_, ?_⟩
    · rw [hd]
      simp [List.replicate_succ]
    · rw [hadd]
      simp
    · simp [hlen]
    · intro k v' t' hv ht' fs0 hfs0
      cases k with
      | zero =>
        simp only [List.getElem?_cons_zero, Option.some.injEq] at hv
        subst hv
        simp only [Nat.add_zero] at ht'
        rw [ht] at ht'
        injection ht' with ht'
        subst ht'
        refine ⟨img, ?_, by simp⟩
        rw [← himg]
        apply TextOnImg_congr
        simp [hfs0, writeFile]
      | succ k =>
        simp only [List.getElem?_cons_succ] at hv
        have ht2 : text[i + 1 + k]? = some t' := by
          rw [← ht']
          congr 1
          omega
        obtain ⟨img', h1, h2⟩ := hfr k v' t' hv ht2 fs0 hfs0
        exact ⟨img', h1, by simpa using h2⟩

/-- The loop over `a ++ b` is the loop over `a` followed by the loop over `b`. -/
theorem frameLoop_append (E : Env I C P) (text : List String) :
    ∀ (a b : List Bytes) (i : Nat) (anim : GIF P) (fs : FS),
      frameLoop E text (a ++ b) i anim fs =
        match frameLoop E text a i anim fs with
        | .done g fs' => frameLoop E text b (i + a.length) g fs'
        | r => r := by
  intro a
  induction a with
  | nil => intro b i anim fs; simp [frameLoop]
  | cons v rest ih =>
    intro b i anim fs
    simp only [List.cons_append, frameLoop, List.length_cons]
    split
    · rfl
    · split
      · rfl
      · split
        · rfl
        · have h := ih b (i + 1)
          simp only [List.append_eq] at h ⊢
          rw [h]
          have : i + 1 + rest.length = i + (rest.length + 1) := by omega
          rw [this]

/-- The frame loop writes `earth.png` only. -/
theorem frameLoop_fs (E : Env I C P) (text : List String) (q : String) (hq : q ≠ "earth.png") :
    ∀ (vs : List Bytes) (i : Nat) (anim : GIF P) (fs : FS),
      (frameLoop E text vs i anim fs).fs q = fs q := by
  intro vs
  induction vs with
  | nil => intro i anim fs; simp [frameLoop, LoopResult.fs]
  | cons v rest ih =>
    intro i anim fs
    simp only [frameLoop]
    split
    · rfl
    · split
      · simp [LoopResult.fs, writeFile, hq]
      · split
        · simp [LoopResult.fs, writeFile, hq]
        · rw [ih]
          simp [writeFile, hq]

/-- Every error returned from inside the frame loop is an `ErrorWithInfo`
naming the call that failed. -/
theorem frameLoop_returned (E : Env I C P) (text : List String) :
    ∀ (vs : List Bytes) (i : Nat) (anim : GIF P) (fs fs' : FS) (e : GoError),
      frameLoop E text vs i anim fs = .returned e fs' →
      ∃ err,
        (e = .ErrorWithInfo err "CreateGIF:ioutil.WriteFile" ∧
          ∃ v ∈ vs, E.WriteFileErr "earth.png" v = some err) ∨
        (e = .ErrorWithInfo err "TextOnImg:gg.LoadPNG" ∧
          ∃ content, E.LoadPNG content = .error err) ∨
        (e = .ErrorWithInfo err "TextOnImg:dc.LoadFontFace" ∧
          ∃ dc path size, E.LoadFontFace dc path size = .error err) := by
  intro vs
  induction vs with
  | nil => intro i anim fs fs' e h; simp [frameLoop] at h
  | cons v rest ih =>
    intro i anim fs fs' e h
    simp only [frameLoop] at h
    split at h
    · rename_i err hw
      injection h with h1 h2
      exact ⟨err, Or.inl ⟨h1.symm, v, by simp, hw⟩⟩
    · split at h
      · cases h
      · split at h
        · rename_i err0 herr
          injection h with h1 h2
          subst h1
          obtain ⟨err, h | h⟩ := TextOnImg_error E _ _ _ herr
          · exact ⟨err, Or.inr (Or.inl ⟨h.1, _, h.2⟩)⟩
          · obtain ⟨h1, dc, h2⟩ := h
            exact ⟨err, Or.inr (Or.inr ⟨h1, dc, _, _, h2⟩)⟩
        · obtain ⟨err, h | h | h⟩ := ih _ _ _ _ _ h
          · obtain ⟨h1, w, hw, h2⟩ := h
            exact ⟨err, Or.inl ⟨h1, w, by simp [hw], h2⟩⟩
          · exact ⟨err, Or.inr (Or.inl h)⟩
          · exact ⟨err, Or.inr (Or.inr h)⟩

/-- A loop that completes on `a ++ b` completes on `a`, and goes on from there. -/
theorem frameLoop_split (E : Env I C P) (text : List String) (a b : List Bytes) (i : Nat)
    (anim g : GIF P) (fs fs' : FS) (h : frameLoop E text (a ++ b) i anim fs = .done g fs') :
    ∃ gk fsk, frameLoop E text a i anim fs = .done gk fsk ∧
      frameLoop E text b (i + a.length) gk fsk = .done g fs' := by
  rw [frameLoop_append] at h
  cases hk : frameLoop E text a i anim fs with
  | done gk fsk => rw [hk] at h; exact ⟨gk, fsk, rfl, h⟩
  | returned e fsk => rw [hk] at h; cases h
  | panicked fsk => rw [hk] at h; cases h

/-! ## Lemmas on `CreateGIF` -/

/-- An encoding without error went through the encoder on an opened file. -/
theorem EncodeAll_none (E : Env I C P) (opened : Bool) (g : GIF P) (written : Bytes)
    (h : EncodeAll E opened g = (written, none)) :
    opened = true ∧ E.Encode g = (written, none) := by
  unfold EncodeAll at h
  split_ifs at h with h1 h2 h3
  · cases h
  · cases h
  · cases h
  · exact ⟨by simpa using h3, h⟩

/-- The animation handed to the encoder is the one a completed frame loop built. -/
theorem CreateGIF_encoded (E : Env I C P) (buf : List Bytes) (text : List String) (fs : FS)
    (g : GIF P) (h : (CreateGIF E buf text fs).encoded = some g) :
    ∃ fs', frameLoop E text buf 0 (emptyAnim P buf) (afterOpen E fs) = .done g fs' := by
  unfold CreateGIF at h
  dsimp only at h
  unfold afterOpen emptyAnim
  split at h
  · cases h
  · cases h
  · rename_i anim fs' hloop
    split at h <;> (injection h with h; subst h; exact ⟨fs', hloop⟩)

/-- A call that returns `nil` has handed an animation to the encoder. -/
theorem CreateGIF_ok_encoded (E : Env I C P) (buf : List Bytes) (text : List String) (fs : FS)
    (h : (CreateGIF E buf text fs).status = .returned none) :
    ∃ g, (CreateGIF E buf text fs).encoded = some g := by
  unfold CreateGIF at h ⊢
  dsimp only at h ⊢
  split
  · rename_i hloop; rw [hloop] at h; cases h
  · rename_i hloop; rw [hloop] at h; cases h
  · split <;> exact ⟨_, rfl⟩

/-- The encoder's bytes and the content of `earth.gif` after a call that
returns `nil`: the bytes lie over the start of the old content. -/
theorem CreateGIF_ok_written (E : Env I C P) (buf : List Bytes) (text : List String) (fs : FS)
    (old : Bytes) (hold : fs "earth.gif" = some old)
    (h : (CreateGIF E buf text fs).status = .returned none) :
    ∃ g written, (CreateGIF E buf text fs).encoded = some g ∧ E.Encode g = (written, none) ∧
      (CreateGIF E buf text fs).fs "earth.gif" = some (written ++ old.drop written.length) := by
  unfold CreateGIF at h ⊢
  dsimp only at h ⊢
  have hfs := frameLoop_fs E text "earth.gif" (by decide) buf 0
    { Image := [], Delay := [], LoopCount := buf.length }
    (if (!E.OpenFileFails "earth.gif") = true then openCreate fs "earth.gif" else fs)
  split
  · rename_i hloop; rw [hloop] at h; cases h
  · rename_i hloop; rw [hloop] at h; cases h
  · rename_i anim fs' hloop
    rw [hloop] at h hfs
    simp only [LoopResult.fs] at hfs
    dsimp only at h
    split
    · rename_i henc; rw [henc] at h; cases h
    · rename_i written henc
      obtain ⟨hopen, henc⟩ := EncodeAll_none E _ anim written henc
      refine ⟨anim, written, rfl, henc, ?_⟩
      rw [if_pos hopen] at hfs
      simp only [hopen, if_true, writeAtStart, hfs, openCreate, hold, Option.getD_some]

/-! ## Claims on package `giff` -/

/-- C2: when `CreateGIF` returns `nil` on `buf` and `text` with at least as many
captions as buffers, the animation it hands to the encoder has exactly
`len(buf)` frames, and for every `i < len(buf)` frame `i` is the palettized
composite of the background `buf[i]` with the caption `text[i]`: the image
decoded from `buf[i]` is drawn on a context of its size, the font is loaded,
the string `text[i]` is drawn on it in white, wrapped, at the offsets
`(width - 500, height - 80)` with width `width - 60`, and the result is
dithered; it is the dithered result of `TextOnImg` on a background file
holding `buf[i]` and the request text `text[i]`. -/
theorem CreateGIF_frames (E : Env I C P) (buf : List Bytes) (text : List String) (fs : FS)
    (hlen : buf.length ≤ text.length)
    (hok : (CreateGIF E buf text fs).status = .returned none) :
    ∃ g, (CreateGIF E buf text fs).encoded = some g ∧ g.Image.length = buf.length ∧
      ∀ i, i < buf.length →
        ∃ v t bg dc, buf[i]? = some v ∧ text[i]? = some t ∧
          E.LoadPNG (some v) = .ok bg ∧
          E.LoadFontFace (E.DrawImage (E.NewContext (E.Dx bg) (E.Dy bg)) bg 0 0)
            "Helvetica.ttf" 100 = .ok dc ∧
          g.Image[i]? = some (E.FloydSteinberg (E.Image
            (E.DrawStringWrapped (E.SetColorWhite dc) t
              (E.Dx bg - 500) (E.Dy bg - 80) (1/2) (1/2) (E.Dx bg - 60) (3/2)))) ∧
          ∀ fs0 : FS, fs0 "earth.png" = some v →
            TextOnImg E fs0 ⟨"earth.png", "Helvetica.ttf", 100, t⟩ =
              .ok (E.Image (E.DrawStringWrapped (E.SetColorWhite dc) t
                (E.Dx bg - 500) (E.Dy bg - 80) (1/2) (1/2) (E.Dx bg - 60) (3/2))) := by
  obtain ⟨g, hg⟩ := CreateGIF_ok_encoded E buf text fs hok
  obtain ⟨fs', hloop⟩ := CreateGIF_encoded E buf text fs g hg
  obtain ⟨_, _, added, hadd, hlen', hfr⟩ := frameLoop_done E text buf 0 _ g _ fs' hloop
  simp only [emptyAnim, List.nil_append] at hadd
  subst hadd
  refine ⟨g, hg, hlen', ?_⟩
  intro i hi
  have hv : buf[i]? = some buf[i] := List.getElem?_eq_getElem hi
  have hi' : i < text.length := Nat.lt_of_lt_of_le hi hlen
  have ht : text[i]? = some text[i] := List.getElem?_eq_getElem hi'
  obtain ⟨img, himg, hframe⟩ :=
    hfr i buf[i] text[i] hv (by simp) (fun _ => some buf[i]) rfl
  obtain ⟨bg, dc, hbg, hdc, himg'⟩ := TextOnImg_ok E _ _ img himg
  subst himg'
  refine ⟨buf[i], text[i], bg, dc, hv, ht, hbg, hdc, hframe, ?_⟩
  intro fs0 hfs0
  rw [← himg]
  apply TextOnImg_congr
  exact hfs0

/-- Witness of C2 on two frames. -/
theorem CreateGIF_frames_witness :
    ∃ g, (CreateGIF demoEnv demoBuf demoText (fun _ => none)).encoded = some g ∧
      g.Image.length = demoBuf.length ∧
      ∀ i, i < demoBuf.length →
        ∃ v t bg dc, demoBuf[i]? = some v ∧ demoText[i]? = some t ∧
          demoEnv.LoadPNG (some v) = .ok bg ∧
          demoEnv.LoadFontFace
            (demoEnv.DrawImage (demoEnv.NewContext (demoEnv.Dx bg) (demoEnv.Dy bg)) bg 0 0)
            "Helvetica.ttf" 100 = .ok dc ∧
          g.Image[i]? = some (demoEnv.FloydSteinberg (demoEnv.Image
            (demoEnv.DrawStringWrapped (demoEnv.SetColorWhite dc) t
              (demoEnv.Dx bg - 500) (demoEnv.Dy bg - 80) (1/2) (1/2) (demoEnv.Dx bg - 60)
              (3/2)))) ∧
          ∀ fs0 : FS, fs0 "earth.png" = some v →
            TextOnImg demoEnv fs0 ⟨"earth.png", "Helvetica.ttf", 100, t⟩ =
              .ok (demoEnv.Image (demoEnv.DrawStringWrapped (demoEnv.SetColorWhite dc) t
                (demoEnv.Dx bg - 500) (demoEnv.Dy bg - 80) (1/2) (1/2) (demoEnv.Dx bg - 60)
                (3/2))) :=
  CreateGIF_frames demoEnv demoBuf demoText (fun _ => none) (by decide) (by decide)

/-- C8: when `CreateGIF` returns `nil` on `N` buffers, the delay sequence of the
animation has `N` entries, all equal to 50; and for every `k ≤ N` the loop has,
after `k` iterations, `k` frames and `k` delays of 50, from where the remaining
iterations lead to the final animation. -/
theorem CreateGIF_delays (E : Env I C P) (buf : List Bytes) (text : List String) (fs : FS)
    (hok : (CreateGIF E buf text fs).status = .returned none) :
    ∃ g, (CreateGIF E buf text fs).encoded = some g ∧
      g.Delay = List.replicate buf.length 50 ∧ g.Delay.length = buf.length ∧
      g.Image.length = g.Delay.length ∧
      ∀ k, k ≤ buf.length →
        ∃ gk fsk fs', frameLoop E text (buf.take k) 0 (emptyAnim P buf) (afterOpen E fs)
            = .done gk fsk ∧
          gk.Image.length = k ∧ gk.Delay = List.replicate k 50 ∧
          gk.Image.length = gk.Delay.length ∧
          frameLoop E text (buf.drop k) k gk fsk = .done g fs' := by
  obtain ⟨g, hg⟩ := CreateGIF_ok_encoded E buf text fs hok
  obtain ⟨fs', hloop⟩ := CreateGIF_encoded E buf text fs g hg
  obtain ⟨_, hd, added, hadd, hlen, _⟩ := frameLoop_done E text buf 0 _ g _ fs' hloop
  simp only [emptyAnim, List.nil_append] at hadd hd
  refine ⟨g, hg, hd, by simp [hd], by simp [hd, hadd, hlen], ?_⟩
  intro k hk
  have hsplit : frameLoop E text (buf.take k ++ buf.drop k) 0 (emptyAnim P buf) (afterOpen E fs)
      = .done g fs' := by
    rw [List.take_append_drop]
    exact hloop
  obtain ⟨gk, fsk, h1, h2⟩ := frameLoop_split E text _ _ 0 _ g _ fs' hsplit
  obtain ⟨_, hdk, addedk, haddk, hlenk, _⟩ := frameLoop_done E text _ 0 _ gk _ fsk h1
  simp only [emptyAnim, List.nil_append, List.length_take, Nat.min_eq_left hk] at haddk hdk hlenk
  have h3 : 0 + (buf.take k).length = k := by simp [hk]
  rw [h3] at h2
  exact ⟨gk, fsk, fs', h1, by simp [haddk, hlenk], hdk, by simp [haddk, hlenk, hdk], h2⟩

/-- Witness of C8 on two frames. -/
theorem CreateGIF_delays_witness :
    ∃ g, (CreateGIF demoEnv demoBuf demoText (fun _ => none)).encoded = some g ∧
      g.Delay = List.replicate demoBuf.length 50 ∧ g.Delay.length = demoBuf.length ∧
      g.Image.length = g.Delay.length ∧
      ∀ k, k ≤ demoBuf.length →
        ∃ gk fsk fs', frameLoop demoEnv demoText (demoBuf.take k) 0 (emptyAnim _ demoBuf)
            (afterOpen demoEnv (fun _ => none)) = .done gk fsk ∧
          gk.Image.length = k ∧ gk.Delay = List.replicate k 50 ∧
          gk.Image.length = gk.Delay.length ∧
          frameLoop demoEnv demoText (demoBuf.drop k) k gk fsk = .done g fs' :=
  CreateGIF_delays demoEnv demoBuf demoText (fun _ => none) (by decide)

/-- C9: the animation `CreateGIF` hands to the encoder has a loop count equal to
`len(buf)`, and so has the animation after every number `k` of iterations of
the frame loop: the loop does not change it. -/
theorem CreateGIF_LoopCount (E : Env I C P) (buf : List Bytes) (text : List String) (fs : FS)
    (g : GIF P) (hg : (CreateGIF E buf text fs).encoded = some g) :
    g.LoopCount = buf.length ∧
      ∀ k, k ≤ buf.length →
        ∃ gk fsk, frameLoop E text (buf.take k) 0 (emptyAnim P buf) (afterOpen E fs)
            = .done gk fsk ∧ gk.LoopCount = buf.length := by
  obtain ⟨fs', hloop⟩ := CreateGIF_encoded E buf text fs g hg
  obtain ⟨hl, _⟩ := frameLoop_done E text buf 0 _ g _ fs' hloop
  refine ⟨hl, ?_⟩
  intro k _
  have hsplit : frameLoop E text (buf.take k ++ buf.drop k) 0 (emptyAnim P buf) (afterOpen E fs)
      = .done g fs' := by
    rw [List.take_append_drop]
    exact hloop
  obtain ⟨gk, fsk, h1, _⟩ := frameLoop_split E text _ _ 0 _ g _ fs' hsplit
  obtain ⟨hlk, _⟩ := frameLoop_done E text _ 0 _ gk _ fsk h1
  exact ⟨gk, fsk, h1, hlk⟩

/-- Witness of C9 on two frames. -/
theorem CreateGIF_LoopCount_witness :
    (CreateGIF demoEnv demoBuf demoText (fun _ => none)).encoded =
        some ⟨[(blackPNG, ["2022-01-01 00:00:00"]), (whitePNG, ["2022-01-01 00:10:00"])],
          [50, 50], 2⟩ ∧
      ((2 : Int) = demoBuf.length ∧
      ∀ k, k ≤ demoBuf.length →
        ∃ gk fsk, frameLoop demoEnv demoText (demoBuf.take k) 0 (emptyAnim _ demoBuf)
            (afterOpen demoEnv (fun _ => none)) = .done gk fsk ∧
          gk.LoopCount = demoBuf.length) :=
  ⟨by decide, CreateGIF_LoopCount demoEnv demoBuf demoText (fun _ => none)
    ⟨[(blackPNG, ["2022-01-01 00:00:00"]), (whitePNG, ["2022-01-01 00:10:00"])], [50, 50], 2⟩
    (by decide)⟩

/-- Every error `CreateGIF` returns is an `ErrorWithInfo` naming the call that failed. -/
theorem CreateGIF_error (E : Env I C P) (buf : List Bytes) (text : List String) (fs : FS)
    (e : GoError) (h : (CreateGIF E buf text fs).status = .returned (some e)) :
    ∃ err info, e = .ErrorWithInfo err info ∧ info ∈ operationNames ∧
      OperationFailed E buf info err := by
  unfold CreateGIF at h
  dsimp only at h
  split at h
  · rename_i err0 fs' hloop
    simp only [Status.returned.injEq, Option.some.injEq] at h
    subst h
    obtain ⟨err, h | h | h⟩ := frameLoop_returned E text _ _ _ _ _ _ hloop
    · exact ⟨err, _, h.1, by simp [operationNames], Or.inr (Or.inr (Or.inl ⟨rfl, h.2⟩))⟩
    · exact ⟨err, _, h.1, by simp [operationNames], Or.inl ⟨rfl, h.2⟩⟩
    · exact ⟨err, _, h.1, by simp [operationNames], Or.inr (Or.inl ⟨rfl, h.2⟩)⟩
  · cases h
  · split at h
    · rename_i anim _ _ _ written encodeErr henc
      simp only [Status.returned.injEq, Option.some.injEq] at h
      subst h
      have hsnd : (EncodeAll E (!E.OpenFileFails "earth.gif") anim).2 = some encodeErr := by
        rw [henc]
      exact ⟨encodeErr, _, rfl, by simp [operationNames],
        Or.inr (Or.inr (Or.inr ⟨rfl, _, anim, hsnd⟩))⟩
    · cases h

/-- C10: every error returned by `TextOnImg` or by `CreateGIF` is an
`ErrorWithInfo` whose `Info` is one of the four operation names and names the
library call that returned the underlying error, and the message of an
`ErrorWithInfo` is, for every `Info` and underlying error, `Info` followed by
": " and the underlying message. -/
theorem errors_wrapped (E : Env I C P) (fs : FS) (req : Req) (buf : List Bytes)
    (text : List String) (e : GoError)
    (h : TextOnImg E fs req = .error e ∨ (CreateGIF E buf text fs).status = .returned (some e)) :
    (∃ err info, e = .ErrorWithInfo err info ∧ info ∈ operationNames ∧
      OperationFailed E buf info err ∧ e.Error = info ++ ": " ++ err.Error) ∧
    ∀ (info : String) (err : GoError),
      (GoError.ErrorWithInfo err info).Error = info ++ ": " ++ err.Error := by
  refine ⟨?_, fun _ _ => rfl⟩
  rcases h with h | h
  · obtain ⟨err, h | h⟩ := TextOnImg_error E fs req e h
    · refine ⟨err, _, h.1, by simp [operationNames], Or.inl ⟨rfl, _, h.2⟩, ?_⟩
      rw [h.1]
      rfl
    · obtain ⟨h1, dc, h2⟩ := h
      refine ⟨err, _, h1, by simp [operationNames], Or.inr (Or.inl ⟨rfl, dc, _, _, h2⟩), ?_⟩
      rw [h1]
      rfl
  · obtain ⟨err, info, h1, h2, h3⟩ := CreateGIF_error E buf text fs e h
    refine ⟨err, info, h1, h2, h3, ?_⟩
    rw [h1]
    rfl

/-- Witness of C10: a buffer that is no PNG makes `CreateGIF` return a wrapped error. -/
theorem errors_wrapped_witness :
    (∃ err info, GoError.ErrorWithInfo (.lib "png: invalid format: not a PNG file")
          "TextOnImg:gg.LoadPNG" = .ErrorWithInfo err info ∧
        info ∈ operationNames ∧ OperationFailed demoEnv [[60, 33]] info err ∧
        (GoError.ErrorWithInfo (.lib "png: invalid format: not a PNG file")
          "TextOnImg:gg.LoadPNG").Error = info ++ ": " ++ err.Error) ∧
    ∀ (info : String) (err : GoError),
      (GoError.ErrorWithInfo err info).Error = info ++ ": " ++ err.Error :=
  errors_wrapped demoEnv (fun _ => none) ⟨"earth.png", "Helvetica.ttf", 100, ""⟩ [[60, 33]]
    ["2022-01-01 00:00:00"] _ (Or.inr (by decide))

/-- C5 fails on the code whenever `earth.gif` holds more bytes than the new
animation encodes to: the file is opened without `O_TRUNC`, so after a call of
`CreateGIF` that returns `nil` the file holds the new bytes followed by what
the old content had beyond their length, which is not empty; the file is not
the encoded bytes, and the result server sends the new bytes with the old
tail. -/
theorem CreateGIF_no_truncate (E : Env I C P) (buf : List Bytes) (text : List String) (fs : FS)
    (old written : Bytes) (g : GIF P) (hold : fs "earth.gif" = some old)
    (hok : (CreateGIF E buf text fs).status = .returned none)
    (hg : (CreateGIF E buf text fs).encoded = some g)
    (henc : E.Encode g = (written, none))
    (hshort : written.length < old.length) :
    (CreateGIF E buf text fs).fs "earth.gif" = some (written ++ old.drop written.length) ∧
    old.drop written.length ≠ [] ∧
    (CreateGIF E buf text fs).fs "earth.gif" ≠ some written ∧
    gifHandler (CreateGIF E buf text fs).fs = (200, written ++ old.drop written.length) ∧
    gifHandler (CreateGIF E buf text fs).fs ≠ (200, written) := by
  obtain ⟨g', written', hg', henc', hfile⟩ := CreateGIF_ok_written E buf text fs old hold hok
  rw [hg] at hg'
  injection hg' with hg'
  subst hg'
  rw [henc] at henc'
  injection henc' with hw _
  subst hw
  have htail : old.drop written.length ≠ [] := by
    intro h
    have := congrArg List.length h
    simp only [List.length_drop, List.length_nil] at this
    omega
  have hne : written ++ old.drop written.length ≠ written := by
    intro h
    exact htail (List.append_right_eq_self.1 h)
  refine ⟨hfile, htail, ?_, ?_, ?_⟩
  · rw [hfile]
    intro h
    injection h with h
    exact hne h
  · simp only [gifHandler, hfile]
  · simp only [gifHandler, hfile]
    intro h
    injection h with _ h
    exact hne h

/-- Witness of the failure of C5: `earth.gif` holds 2000 bytes and the new
animation of two frames of one pixel encodes to fewer. -/
theorem CreateGIF_no_truncate_witness :
    (CreateGIF demoEnv demoBuf demoText (onlyGif (List.replicate 2000 0))).fs "earth.gif" =
      some ((demoEnv.Encode ⟨[(blackPNG, ["2022-01-01 00:00:00"]),
          (whitePNG, ["2022-01-01 00:10:00"])], [50, 50], 2⟩).1 ++
        (List.replicate 2000 0).drop (demoEnv.Encode ⟨[(blackPNG, ["2022-01-01 00:00:00"]),
          (whitePNG, ["2022-01-01 00:10:00"])], [50, 50], 2⟩).1.length) ∧
    (List.replicate 2000 (0 : UInt8)).drop (demoEnv.Encode ⟨[(blackPNG, ["2022-01-01 00:00:00"]),
          (whitePNG, ["2022-01-01 00:10:00"])], [50, 50], 2⟩).1.length ≠ [] ∧
    (CreateGIF demoEnv demoBuf demoText (onlyGif (List.replicate 2000 0))).fs "earth.gif" ≠
      some (demoEnv.Encode ⟨[(blackPNG, ["2022-01-01 00:00:00"]),
          (whitePNG, ["2022-01-01 00:10:00"])], [50, 50], 2⟩).1 ∧
    gifHandler (CreateGIF demoEnv demoBuf demoText (onlyGif (List.replicate 2000 0))).fs =
      (200, (demoEnv.Encode ⟨[(blackPNG, ["2022-01-01 00:00:00"]),
          (whitePNG, ["2022-01-01 00:10:00"])], [50, 50], 2⟩).1 ++
        (List.replicate 2000 0).drop (demoEnv.Encode ⟨[(blackPNG, ["2022-01-01 00:00:00"]),
          (whitePNG, ["2022-01-01 00:10:00"])], [50, 50], 2⟩).1.length) ∧
    gifHandler (CreateGIF demoEnv demoBuf demoText (onlyGif (List.replicate 2000 0))).fs ≠
      (200, (demoEnv.Encode ⟨[(blackPNG, ["2022-01-01 00:00:00"]),
          (whitePNG, ["2022-01-01 00:10:00"])], [50, 50], 2⟩).1) :=
  CreateGIF_no_truncate demoEnv demoBuf demoText (onlyGif (List.replicate 2000 0))
    (List.replicate 2000 0) _
    ⟨[(blackPNG, ["2022-01-01 00:00:00"]), (whitePNG, ["2022-01-01 00:10:00"])], [50, 50], 2⟩
    (by rfl) (by decide) (by decide) (by rfl)
    (by
      simp only [demoEnv, littleEndian16, List.length_append, List.length_flatten, List.map_cons,
        List.map_nil, List.length_replicate, List.length_cons, List.length_nil, List.sum_cons,
        List.sum_nil]
      decide)

/-! ## Lemmas on `FieldSlice` and the fetch -/

theorem fieldLoop_Bytes : ∀ (imgs : List ImgData) (slice : List Bytes),
    fieldLoop "Bytes" imgs slice = slice ++ imgs.map (fun im => im.Bytes) := by
  intro imgs
  induction imgs with
  | nil => intro slice; simp [fieldLoop]
  | cons v rest ih =>
    intro slice
    have hne : ¬ ("Bytes" = "Date") := by decide
    simp only [fieldLoop, hne, if_false, if_true, ih, FieldType.ofBytes]
    simp

theorem fieldLoop_Date : ∀ (imgs : List ImgData) (slice : List String),
    fieldLoop "Date" imgs slice = slice ++ imgs.map (fun im => im.Date) := by
  intro imgs
  induction imgs with
  | nil => intro slice; simp [fieldLoop]
  | cons v rest ih =>
    intro slice
    simp only [fieldLoop, if_true, ih, FieldType.ofString]
    simp

/-- The byte sequence `FieldSlice[[]byte](imgs, "Bytes")`. -/
theorem FieldSlice_Bytes (imgs : List ImgData) :
    FieldSlice Bytes imgs "Bytes" = imgs.map (fun im => im.Bytes) := by
  simp [FieldSlice, fieldLoop_Bytes]

/-- The caption sequence `FieldSlice[string](imgs, "Date")`. -/
theorem FieldSlice_Date (imgs : List ImgData) :
    FieldSlice String imgs "Date" = imgs.map (fun im => im.Date) := by
  simp [FieldSlice, fieldLoop_Date]

/-- The function `GetPNG` is the shared request on the URL `pngURL`. -/
theorem GetPNG_eq_get (H : Http) (key png date : String) :
    GetPNG H key png date = get H (pngURL key png date) "image/png" := by
  unfold GetPNG pngURL
  dsimp only
  cases get H _ "image/png" <;> rfl

/-- The shared request, by what the network answers at the URL. -/
theorem get_eq (H : Http) (url contentType : String) :
    get H url contentType =
      match H.NewRequestErr url with
      | some err => .error err
      | none =>
        match H.Do url contentType with
        | .error err => .error err
        | .ok res => res.Body := by
  unfold get
  cases H.NewRequestErr url with
  | some err => rfl
  | none =>
    dsimp only
    cases H.Do url contentType with
    | error err => rfl
    | ok res =>
      dsimp only
      cases res.Body <;> rfl

theorem getElem?_lt_of_some {α : Type} (l : List α) (i : Nat) (a : α) (h : l[i]? = some a) :
    i < l.length := by
  by_contra hge
  have : l[i]? = none := List.getElem?_eq_none (by omega)
  rw [this] at h
  cases h

/-! ## The invariant of the fetch phase -/

theorem Inv_init (H : Nat → Http) (key : String) (imgs : List ImgData) :
    Inv H key imgs (initFetch imgs) := by
  refine ⟨by simp [initFetch], ?_, by simp [initFetch], ?_⟩
  · intro i im0 h
    refine ⟨im0, .ready, ?_, rfl⟩
    simp [initFetch, List.getElem?_map, h]
  · intro i
    simp only [initFetch, List.not_mem_nil, List.getElem?_map, false_iff, not_exists]
    intro im h
    cases hi : imgs[i]? with
    | none => rw [hi] at h; cases h
    | some a => rw [hi] at h; cases h

/-- A step of goroutine `i` that is not yet done keeps the invariant. -/
theorem Inv_set (H : Nat → Http) (key : String) (imgs0 : List ImgData) (st : FetchState)
    (hinv : Inv H key imgs0 st) (i : Nat) (im im' : ImgData) (g g' : Goroutine)
    (hget : st.tasks[i]? = some (im, g)) (hg : g ≠ .done)
    (hrel : ∀ im0, imgs0[i]? = some im0 → Rel (fetchCall (H i) key im0) im0 im g →
      Rel (fetchCall (H i) key im0) im0 im' g')
    (e' : Option GoError) (f' : List Nat)
    (hf : (g' ≠ .done ∧ f' = st.finished) ∨ (g' = .done ∧ f' = st.finished ++ [i])) :
    Inv H key imgs0 { tasks := st.tasks.set i (im', g'), err := e', finished := f' } := by
  obtain ⟨hlen, hall, hnodup, hfin⟩ := hinv
  have hi : i < st.tasks.length := getElem?_lt_of_some _ _ _ hget
  have hnotin : i ∉ st.finished := by
    intro hmem
    obtain ⟨im1, h1⟩ := (hfin i).1 hmem
    rw [hget] at h1
    injection h1 with h1
    injection h1 with _ h1
    exact hg h1
  refine ⟨by simpa using hlen, ?_, ?_, ?_⟩
  · intro j im0 hj
    by_cases hji : j = i
    · subst hji
      obtain ⟨im1, g1, h1, h2⟩ := hall j im0 hj
      rw [hget] at h1
      injection h1 with h1
      injection h1 with ha hb
      subst ha
      subst hb
      exact ⟨im', g', by simp [List.getElem?_set, hi], hrel im0 hj h2⟩
    · obtain ⟨im1, g1, h1, h2⟩ := hall j im0 hj
      refine ⟨im1, g1, ?_, h2⟩
      simp only
      rw [List.getElem?_set_ne (Ne.symm hji)]
      exact h1
  · rcases hf with ⟨_, hf⟩ | ⟨_, hf⟩
    · simp only [hf]
      exact hnodup
    · simp only [hf]
      exact List.Nodup.append hnodup (List.nodup_singleton i)
        (fun a ha hb => hnotin (by
          rw [List.mem_singleton] at hb
          rw [← hb]
          exact ha))
  · intro j
    simp only
    by_cases hji : j = i
    · subst hji
      simp only [List.getElem?_set, hi, if_true, Option.some.injEq, Prod.mk.injEq]
      rcases hf with ⟨hg', hf⟩ | ⟨hg', hf⟩
      · subst hf
        constructor
        · intro h; exact absurd h hnotin
        · rintro ⟨_, _, h⟩; exact absurd h hg'
      · subst hf
        constructor
        · intro _; exact ⟨im', rfl, hg'⟩
        · intro _; simp
    · rw [List.getElem?_set_ne (Ne.symm hji)]
      rw [← hfin j]
      rcases hf with ⟨_, hf⟩ | ⟨_, hf⟩
      · rw [hf]
      · rw [hf]
        simp [hji]

/-- Every step keeps the invariant. -/
theorem Inv_step (H : Nat → Http) (key : String) (imgs0 : List ImgData) (i : Nat)
    (st st' : FetchState) (hinv : Inv H key imgs0 st) (h : step H key i st = .ok st') :
    Inv H key imgs0 st' := by
  unfold step at h
  split at h
  · injection h with h; subst h; exact hinv
  · rename_i im hget
    injection h with h
    subst h
    refine Inv_set H key imgs0 st hinv i im im .ready _ hget (by simp) ?_ _ _
      (Or.inl ⟨by simp, rfl⟩)
    intro im0 _ hrel
    simp only [Rel] at hrel ⊢
    subst hrel
    exact ⟨rfl, rfl⟩
  · rename_i im body err hget
    injection h with h
    subst h
    refine Inv_set H key imgs0 st hinv i im _ (.returned body err) _ hget (by simp) ?_ _ _
      (Or.inl ⟨by simp, rfl⟩)
    intro im0 _ hrel
    simp only [Rel] at hrel ⊢
    obtain ⟨h1, h2⟩ := hrel
    subst h1
    rw [← h2]
    exact ⟨rfl, rfl⟩
  · rename_i im err hget
    injection h with h
    subst h
    refine Inv_set H key imgs0 st hinv i im im (.storedBytes err) _ hget (by simp) ?_ _ _
      (Or.inl ⟨by simp, rfl⟩)
    intro im0 _ hrel
    simp only [Rel] at hrel ⊢
    exact hrel.1
  · rename_i im hget
    split at h
    · cases h
    · injection h with h
      subst h
      refine Inv_set H key imgs0 st hinv i im im .storedErr _ hget (by simp) ?_ _ _
        (Or.inr ⟨rfl, rfl⟩)
      intro im0 _ hrel
      simp only [Rel] at hrel ⊢
      exact hrel
  · injection h with h; subst h; exact hinv

/-- A run of the schedule keeps the invariant. -/
theorem Inv_run (H : Nat → Http) (key : String) (imgs0 : List ImgData) :
    ∀ (sched : List Nat) (st st' : FetchState), Inv H key imgs0 st →
      runSchedule H key sched st = .ok st' → Inv H key imgs0 st' := by
  intro sched
  induction sched with
  | nil =>
    intro st st' hinv h
    simp only [runSchedule] at h
    injection h with h
    subst h
    exact hinv
  | cons i sched ih =>
    intro st st' hinv h
    simp only [runSchedule] at h
    split at h
    · cases h
    · rename_i st1 hstep
      exact ih st1 st' (Inv_step H key imgs0 i st st1 hinv hstep) h

/-- Under the invariant the goroutines that are done are below the number of records. -/
theorem finished_lt (H : Nat → Http) (key : String) (imgs0 : List ImgData) (st : FetchState)
    (hinv : Inv H key imgs0 st) : ∀ i ∈ st.finished, i < imgs0.length := by
  intro i hi
  obtain ⟨hlen, _, _, hfin⟩ := hinv
  obtain ⟨im, h⟩ := (hfin i).1 hi
  rw [← hlen]
  exact getElem?_lt_of_some _ _ _ h

/-- When `wg.Wait()` returns, the order of the calls of `wg.Done()` is a
permutation of the goroutines. -/
theorem finished_perm (H : Nat → Http) (key : String) (imgs0 : List ImgData) (st : FetchState)
    (hinv : Inv H key imgs0 st) (hbarrier : st.finished.length = imgs0.length) :
    st.finished.Perm (List.range imgs0.length) := by
  have hsub : st.finished ⊆ List.range imgs0.length := by
    intro i hi
    exact List.mem_range.2 (finished_lt H key imgs0 st hinv i hi)
  have hsp : st.finished.Subperm (List.range imgs0.length) :=
    List.subperm_of_subset hinv.2.2.1 hsub
  exact hsp.perm_of_length_le (by simp [hbarrier])

/-- When `wg.Wait()` returns, every record holds the bytes its own goroutine's
call of `GetPNG` returned, and nothing else of it has changed. -/
theorem record_after_barrier (H : Nat → Http) (key : String) (imgs0 : List ImgData)
    (st : FetchState) (hinv : Inv H key imgs0 st) (hbarrier : st.finished.length = imgs0.length)
    (i : Nat) (im0 : ImgData) (hi : imgs0[i]? = some im0) :
    st.imgs[i]? = some { im0 with Bytes := (fetchCall (H i) key im0).1 } := by
  have hperm := finished_perm H key imgs0 st hinv hbarrier
  have hlt : i < imgs0.length := getElem?_lt_of_some _ _ _ hi
  have hmem : i ∈ st.finished := (hperm.mem_iff).2 (List.mem_range.2 hlt)
  obtain ⟨_, hall, _, hfin⟩ := hinv
  obtain ⟨im1, h1⟩ := (hfin i).1 hmem
  obtain ⟨im, g, h2, hrel⟩ := hall i im0 hi
  rw [h1] at h2
  injection h2 with h2
  injection h2 with ha hb
  subst ha
  subst hb
  simp only [Rel] at hrel
  simp only [FetchState.imgs, List.getElem?_map, h1, Option.map_some']
  rw [hrel]

/-! ## Progress of the goroutines -/

theorem rank_done (g : Goroutine) (h : 4 ≤ g.rank) : g = .done := by
  cases g <;> simp [Goroutine.rank] at h ⊢

/-- A step of goroutine `j` moves goroutine `j` on, unless it is done, and
leaves the step count of every other goroutine. -/
theorem step_rank (H : Nat → Http) (key : String) (j i : Nat) (st st' : FetchState)
    (im : ImgData) (g : Goroutine) (h : step H key j st = .ok st')
    (hget : st.tasks[i]? = some (im, g)) :
    ∃ im' g', st'.tasks[i]? = some (im', g') ∧
      min 4 (g.rank + (if j = i then 1 else 0)) ≤ g'.rank := by
  have hi : i < st.tasks.length := getElem?_lt_of_some _ _ _ hget
  by_cases hji : j = i
  · subst hji
    unfold step at h
    rw [hget] at h
    cases g with
    | ready =>
      injection h with h; subst h
      exact ⟨im, .returned (fetchCall (H j) key im).1 (fetchCall (H j) key im).2,
        by simp [List.getElem?_set, hi], by simp [Goroutine.rank]⟩
    | returned body err =>
      injection h with h; subst h
      exact ⟨{ im with Bytes := body }, .storedBytes err,
        by simp [List.getElem?_set, hi], by simp [Goroutine.rank]⟩
    | storedBytes err =>
      injection h with h; subst h
      exact ⟨im, .storedErr, by simp [List.getElem?_set, hi], by simp [Goroutine.rank]⟩
    | storedErr =>
      dsimp only at h
      split at h
      · cases h
      · injection h with h; subst h
        exact ⟨im, .done, by simp [List.getElem?_set, hi], by simp [Goroutine.rank]⟩
    | done =>
      injection h with h; subst h
      exact ⟨im, .done, hget, by simp [Goroutine.rank]⟩
  · have hkeep : st'.tasks[i]? = some (im, g) := by
      unfold step at h
      split at h
      · injection h with h; subst h; exact hget
      · injection h with h; subst h
        simp only
        rw [List.getElem?_set_ne hji]; exact hget
      · injection h with h; subst h
        simp only
        rw [List.getElem?_set_ne hji]; exact hget
      · injection h with h; subst h
        simp only
        rw [List.getElem?_set_ne hji]; exact hget
      · split at h
        · cases h
        · injection h with h; subst h
          simp only
          rw [List.getElem?_set_ne hji]; exact hget
      · injection h with h; subst h; exact hget
    exact ⟨im, g, hkeep, by simp [hji]⟩

/-- A goroutine named `c` times in a schedule that runs through has taken `c`
steps, or is done. -/
theorem run_rank (H : Nat → Http) (key : String) (i : Nat) :
    ∀ (sched : List Nat) (st st' : FetchState) (im : ImgData) (g : Goroutine),
      runSchedule H key sched st = .ok st' → st.tasks[i]? = some (im, g) →
      ∃ im' g', st'.tasks[i]? = some (im', g') ∧ min 4 (g.rank + sched.count i) ≤ g'.rank := by
  intro sched
  induction sched with
  | nil =>
    intro st st' im g h hget
    simp only [runSchedule] at h
    injection h with h
    subst h
    exact ⟨im, g, hget, by simp⟩
  | cons j sched ih =>
    intro st st' im g h hget
    simp only [runSchedule] at h
    split at h
    · cases h
    · rename_i st1 hstep
      obtain ⟨im1, g1, h1, hr1⟩ := step_rank H key j i st st1 im g hstep hget
      obtain ⟨im2, g2, h2, hr2⟩ := ih st1 st' im1 g1 h h1
      refine ⟨im2, g2, h2, ?_⟩
      have hc : (j :: sched).count i = sched.count i + (if j = i then 1 else 0) := by
        rw [List.count_cons]
        simp only [beq_iff_eq]
      rw [hc]
      have : min 4 (g.rank + (sched.count i + if j = i then 1 else 0)) ≤
          min 4 (g1.rank + sched.count i) := by
        simp only [le_min_iff, min_le_iff] at hr1 ⊢
        omega
      exact le_trans this hr2

/-- A schedule that runs through and names every goroutine four times passes
the barrier. -/
theorem barrier_of_fair (H : Nat → Http) (key : String) (imgs0 : List ImgData)
    (sched : List Nat) (st : FetchState)
    (hrun : runSchedule H key sched (initFetch imgs0) = .ok st)
    (hfair : ∀ i, i < imgs0.length → 4 ≤ sched.count i) :
    st.finished.length = imgs0.length := by
  have hinv := Inv_run H key imgs0 sched _ st (Inv_init H key imgs0) hrun
  have hsub : List.range imgs0.length ⊆ st.finished := by
    intro i hi
    have hlt := List.mem_range.1 hi
    have hget : (initFetch imgs0).tasks[i]? = some (imgs0[i], Goroutine.ready) := by
      simp [initFetch, List.getElem?_map, List.getElem?_eq_getElem hlt]
    obtain ⟨im', g', h1, h2⟩ := run_rank H key i sched _ st _ _ hrun hget
    have h4 := hfair i hlt
    have hg : g' = .done := by
      apply rank_done
      have h0 : Goroutine.ready.rank = 0 := rfl
      rw [h0] at h2
      simp only [le_min_iff, min_le_iff] at h2
      omega
    subst hg
    exact (hinv.2.2.2 i).2 ⟨im', h1⟩
  have h1 : (List.range imgs0.length).Subperm st.finished :=
    List.subperm_of_subset (List.nodup_range _) hsub
  have h2 : st.finished.Subperm (List.range imgs0.length) :=
    List.subperm_of_subset hinv.2.2.1
      (fun i hi => List.mem_range.2 (finished_lt H key imgs0 st hinv i hi))
  have := h1.length_le
  have := h2.length_le
  simp only [List.length_range] at *
  omega

/-! ## Every order of completion occurs -/

theorem runSchedule_append (H : Nat → Http) (key : String) :
    ∀ (a b : List Nat) (st st' : FetchState), runSchedule H key a st = .ok st' →
      runSchedule H key (a ++ b) st = runSchedule H key b st' := by
  intro a
  induction a with
  | nil =>
    intro b st st' h
    simp only [runSchedule] at h
    injection h with h
    subst h
    rfl
  | cons i a ih =>
    intro b st st' h
    simp only [runSchedule, List.cons_append] at h ⊢
    split at h
    · cases h
    · rename_i st1 hstep
      exact ih b st1 st' h

/-- A goroutine whose fetch succeeds, run alone from its start while `err` is
nil, stores its bytes and calls `wg.Done()`. -/
theorem run_one_task (H : Nat → Http) (key : String) (i : Nat) (st : FetchState)
    (im : ImgData) (hget : st.tasks[i]? = some (im, .ready)) (herr : st.err = none)
    (hok : (fetchCall (H i) key im).2 = none) :
    runSchedule H key [i, i, i, i] st =
      .ok { tasks := st.tasks.set i ({ im with Bytes := (fetchCall (H i) key im).1 }, .done),
            err := none, finished := st.finished ++ [i] } := by
  have hi : i < st.tasks.length := getElem?_lt_of_some _ _ _ hget
  simp only [runSchedule, step, hget, List.getElem?_set_self, List.length_set, hi, List.set_set,
    hok, herr]

/-- The goroutines of `order`, all at their start and with fetches that
succeed, run one after the other and complete in the order `order`. -/
theorem run_atomic (H : Nat → Http) (key : String) :
    ∀ (order : List Nat) (st : FetchState), order.Nodup → st.err = none →
      (∀ i ∈ order, ∃ im, st.tasks[i]? = some (im, .ready) ∧ (fetchCall (H i) key im).2 = none) →
      ∃ st', runSchedule H key (atomicSchedule order) st = .ok st' ∧
        st'.finished = st.finished ++ order := by
  intro order
  induction order with
  | nil => intro st _ _ _; exact ⟨st, rfl, by simp⟩
  | cons i order ih =>
    intro st hnodup herr hall
    obtain ⟨im, hget, hok⟩ := hall i (List.mem_cons_self _ _)
    have hone := run_one_task H key i st im hget herr hok
    obtain ⟨hnotin, hnodup'⟩ := List.nodup_cons.1 hnodup
    obtain ⟨st', hrun, hfin⟩ := ih
      { tasks := st.tasks.set i ({ im with Bytes := (fetchCall (H i) key im).1 }, .done),
        err := none, finished := st.finished ++ [i] } hnodup' rfl (by
      intro j hj
      obtain ⟨imj, hgetj, hokj⟩ := hall j (List.mem_cons_of_mem _ hj)
      have hji : i ≠ j := fun h => hnotin (h ▸ hj)
      refine ⟨imj, ?_, hokj⟩
      rw [List.getElem?_set_ne hji]
      exact hgetj)
    refine ⟨st', ?_, ?_⟩
    · have : atomicSchedule (i :: order) = [i, i, i, i] ++ atomicSchedule order := by
        simp [atomicSchedule, List.flatMap_cons]
      rw [this, runSchedule_append H key _ _ st _ hone]
      exact hrun
    · rw [hfin]
      simp

/-- Every permutation of the tasks is an order of completion: when all fetches
succeed, the goroutines run one after the other in that order pass the barrier
in that order. -/
theorem every_order_completes (H : Nat → Http) (key : String) (imgs : List ImgData)
    (order : List Nat) (hperm : order.Perm (List.range imgs.length))
    (hok : ∀ i im, imgs[i]? = some im → (fetchCall (H i) key im).2 = none) :
    ∃ st, runSchedule H key (atomicSchedule order) (initFetch imgs) = .ok st ∧
      st.finished = order ∧ st.finished.length = imgs.length := by
  have hnodup : order.Nodup := (hperm.nodup_iff).2 (List.nodup_range _)
  obtain ⟨st, hrun, hfin⟩ := run_atomic H key order (initFetch imgs) hnodup rfl (by
    intro i hi
    have hlt : i < imgs.length := List.mem_range.1 ((hperm.mem_iff).1 hi)
    have him : imgs[i]? = some imgs[i] := List.getElem?_eq_getElem hlt
    refine ⟨imgs[i], ?_, hok i imgs[i] him⟩
    simp [initFetch, List.getElem?_map, him])
  have hfin' : st.finished = order := by
    rw [hfin]
    simp [initFetch]
  refine ⟨st, hrun, hfin', ?_⟩
  rw [hfin', hperm.length_eq]
  simp

/-! ## Claims on the fetch and the catalog client -/

/-- A failed fetch can pass the barrier: the fetch of frame 0 fails, goroutine 1
assigns nil to the shared `err` before goroutine 0 tests it, and `wg.Wait()`
returns with a nil `Bytes` in record 0. -/
theorem masked_failure_passes_barrier :
    (lossyNet 0).Do (pngURL "k" "A" (dateArg "2022-01-01 00:00:00")) "image/png" =
      .error (.lib "dial tcp: i/o timeout") ∧
    runSchedule lossyNet "k" [0, 0, 0, 1, 1, 1, 0, 1] (initFetch demoImgs) = .ok maskedFinal ∧
    maskedFinal.finished.length = demoImgs.length ∧
    FieldSlice Bytes maskedFinal.imgs "Bytes" = [[], whitePNG] :=
  ⟨by rfl, by rfl, by decide, by decide⟩

/-- C1: for every list of descriptors and every interleaving of the fetch
goroutines, once `wg.Wait()` has returned, the order in which the goroutines
completed is a permutation of the tasks, the byte sequence and the caption
sequence have the length of the descriptor list, they are the `Bytes` and the
`Date` fields of the records in list order, at every index `i` the byte
sequence holds the byte slice `GetPNG` returned for descriptor `i` (its
identifier and the date of its timestamp) and the caption sequence holds
descriptor `i`'s timestamp, and these two sequences are the arguments with
which `main` calls `CreateGIF`. Every permutation of the tasks is such an order
of completion when all fetches succeed. -/
theorem fetch_order (H : Nat → Http) (key : String) (imgs : List ImgData) (sched : List Nat)
    (st : FetchState) (hrun : runSchedule H key sched (initFetch imgs) = .ok st)
    (hbarrier : st.finished.length = imgs.length) :
    st.finished.Perm (List.range imgs.length) ∧
    (FieldSlice Bytes st.imgs "Bytes").length = imgs.length ∧
    (FieldSlice String st.imgs "Date").length = imgs.length ∧
    FieldSlice Bytes st.imgs "Bytes" = st.imgs.map (fun im => im.Bytes) ∧
    FieldSlice String st.imgs "Date" = st.imgs.map (fun im => im.Date) ∧
    (∀ i, i < imgs.length →
      ∃ im, imgs[i]? = some im ∧
        (FieldSlice Bytes st.imgs "Bytes")[i]? =
          some (results (GetPNG (H i) key im.Image (dateArg im.Date))).1 ∧
        (∀ body, GetPNG (H i) key im.Image (dateArg im.Date) = .ok body →
          (FieldSlice Bytes st.imgs "Bytes")[i]? = some body) ∧
        (FieldSlice String st.imgs "Date")[i]? = some im.Date) ∧
    (∀ (H0 : Http) (E : Env I C P) (date : String) (fs : FS),
      GetImgNames H0 key date = .ok imgs →
      pipeline H0 H E key date sched fs =
        afterCreate (CreateGIF E (FieldSlice Bytes st.imgs "Bytes")
          (FieldSlice String st.imgs "Date") fs)) ∧
    ∀ order : List Nat, order.Perm (List.range imgs.length) →
      (∀ i im, imgs[i]? = some im →
        ∃ body, GetPNG (H i) key im.Image (dateArg im.Date) = .ok body) →
      ∃ st', runSchedule H key (atomicSchedule order) (initFetch imgs) = .ok st' ∧
        st'.finished = order ∧ st'.finished.length = imgs.length := by
  have hinv := Inv_run H key imgs sched _ st (Inv_init H key imgs) hrun
  have hlen : st.imgs.length = imgs.length := by
    simp only [FetchState.imgs, List.length_map]
    exact hinv.1
  have hrec := record_after_barrier H key imgs st hinv hbarrier
  refine ⟨finished_perm H key imgs st hinv hbarrier, ?_, ?_, FieldSlice_Bytes _,
    FieldSlice_Date _, ?_, ?_, ?_⟩
  · rw [FieldSlice_Bytes]; simp [hlen]
  · rw [FieldSlice_Date]; simp [hlen]
  · intro i hi
    have him : imgs[i]? = some imgs[i] := List.getElem?_eq_getElem hi
    have h := hrec i imgs[i] him
    have hb : (FieldSlice Bytes st.imgs "Bytes")[i]? =
        some (results (GetPNG (H i) key imgs[i].Image (dateArg imgs[i].Date))).1 := by
      rw [FieldSlice_Bytes]
      simp only [List.getElem?_map, h, Option.map_some']
      rfl
    refine ⟨imgs[i], him, hb, ?_, ?_⟩
    · intro body hbody
      rw [hb, hbody]
      rfl
    · rw [FieldSlice_Date]
      simp only [List.getElem?_map, h, Option.map_some']
  · intro H0 E date fs hnames
    unfold pipeline
    rw [hnames]
    dsimp only
    rw [hrun]
    dsimp only
    rw [if_pos hbarrier]
  · intro order hperm hok
    apply every_order_completes H key imgs order hperm
    intro i im him
    obtain ⟨body, hbody⟩ := hok i im him
    unfold fetchCall
    rw [hbody]
    rfl

/-- Witness of C1: two descriptors whose goroutines run interleaved, goroutine 1
completing first. -/
theorem fetch_order_witness :
    demoFinal.finished.Perm (List.range demoImgs.length) ∧
    (FieldSlice Bytes demoFinal.imgs "Bytes").length = demoImgs.length ∧
    (FieldSlice String demoFinal.imgs "Date").length = demoImgs.length ∧
    FieldSlice Bytes demoFinal.imgs "Bytes" = demoFinal.imgs.map (fun im => im.Bytes) ∧
    FieldSlice String demoFinal.imgs "Date" = demoFinal.imgs.map (fun im => im.Date) ∧
    (∀ i, i < demoImgs.length →
      ∃ im, demoImgs[i]? = some im ∧
        (FieldSlice Bytes demoFinal.imgs "Bytes")[i]? =
          some (results (GetPNG (demoNet 200 i) "k" im.Image (dateArg im.Date))).1 ∧
        (∀ body, GetPNG (demoNet 200 i) "k" im.Image (dateArg im.Date) = .ok body →
          (FieldSlice Bytes demoFinal.imgs "Bytes")[i]? = some body) ∧
        (FieldSlice String demoFinal.imgs "Date")[i]? = some im.Date) ∧
    (∀ (H0 : Http) (E : Env (Bytes × List String) (Bytes × List String) (Bytes × List String))
      (date : String) (fs : FS),
      GetImgNames H0 "k" date = .ok demoImgs →
      pipeline H0 (demoNet 200) E "k" date [0, 1, 1, 0, 1, 1, 0, 0] fs =
        afterCreate (CreateGIF E (FieldSlice Bytes demoFinal.imgs "Bytes")
          (FieldSlice String demoFinal.imgs "Date") fs)) ∧
    ∀ order : List Nat, order.Perm (List.range demoImgs.length) →
      (∀ i im, demoImgs[i]? = some im →
        ∃ body, GetPNG (demoNet 200 i) "k" im.Image (dateArg im.Date) = .ok body) →
      ∃ st', runSchedule (demoNet 200) "k" (atomicSchedule order) (initFetch demoImgs) = .ok st' ∧
        st'.finished = order ∧ st'.finished.length = demoImgs.length :=
  fetch_order (demoNet 200) "k" demoImgs [0, 1, 1, 0, 1, 1, 0, 0] demoFinal (by rfl) (by decide)

/-- C3 fails on the code: a frame request answered with status 404 and the body
60, 33 makes `GetPNG` return that body without an error, and a catalog query
answered with status 500 makes `GetImgNames` and `GetAllDates` return the
decoded list without an error. -/
theorem GetPNG_returns_body_of_404 :
    is2xx 404 = false ∧ is2xx 500 = false ∧
    GetPNG (demoHttp 404 [60, 33] demoImgs) "k" "A" "2022/01/01" = .ok [60, 33] ∧
    GetImgNames ⟨fun _ => none, fun _ _ => .ok ⟨500, .ok [91, 93]⟩, fun _ => .ok demoImgs⟩
      "k" "2022-01-01" = .ok demoImgs ∧
    GetAllDates ⟨fun _ => none, fun _ _ => .ok ⟨500, .ok [91, 93]⟩, fun _ => .ok demoImgs⟩
      "k" = .ok demoImgs :=
  ⟨by decide, by decide, by rfl, by rfl, by rfl⟩

/-- C3 as amended: the three catalog operations do not look at the status. For
every response, of any status, whose body is read without error, `GetPNG`
returns the body as its result, and `GetImgNames` and `GetAllDates` return what
the JSON decoder makes of the body. -/
theorem catalog_ignores_status (H : Http) (key png date : String) (res : Response)
    (body : Bytes) (hreq : ∀ url, H.NewRequestErr url = none)
    (hdo : ∀ url contentType, H.Do url contentType = .ok res) (hbody : res.Body = .ok body) :
    GetPNG H key png date = .ok body ∧
    GetImgNames H key date = H.Unmarshal body ∧
    GetAllDates H key = H.Unmarshal body := by
  have hget : ∀ url contentType, get H url contentType = .ok body := by
    intro url contentType
    simp only [get, hreq, hdo, hbody]
  refine ⟨?_, ?_, ?_⟩
  · rw [GetPNG_eq_get, hget]
  · unfold GetImgNames
    simp only [hget]
    cases H.Unmarshal body <;> rfl
  · unfold GetAllDates
    simp only [hget]
    cases H.Unmarshal body <;> rfl

/-- Witness of the amended C3 on a response of status 404. -/
theorem catalog_ignores_status_witness :
    GetPNG ⟨fun _ => none, fun _ _ => .ok ⟨404, .ok [60, 33]⟩, fun _ => .ok demoImgs⟩
        "k" "A" "2022/01/01" = .ok [60, 33] ∧
    GetImgNames ⟨fun _ => none, fun _ _ => .ok ⟨404, .ok [60, 33]⟩, fun _ => .ok demoImgs⟩
        "k" "2022/01/01" =
      (⟨fun _ => none, fun _ _ => .ok ⟨404, .ok [60, 33]⟩, fun _ => .ok demoImgs⟩ : Http).Unmarshal
        [60, 33] ∧
    GetAllDates ⟨fun _ => none, fun _ _ => .ok ⟨404, .ok [60, 33]⟩, fun _ => .ok demoImgs⟩ "k" =
      (⟨fun _ => none, fun _ _ => .ok ⟨404, .ok [60, 33]⟩, fun _ => .ok demoImgs⟩ : Http).Unmarshal
        [60, 33] :=
  catalog_ignores_status ⟨fun _ => none, fun _ _ => .ok ⟨404, .ok [60, 33]⟩, fun _ => .ok demoImgs⟩
    "k" "A" "2022/01/01" ⟨404, .ok [60, 33]⟩ [60, 33] (fun _ => rfl) (fun _ _ => rfl) rfl

/-- C6 fails on the code: the catalog lists the dates 2022-01-03 and
2022-01-01, newest first, and the operator asks for 2022-01-05, which is not
listed. At index 0 the listed date is earlier than the requested one, and
printing the two options evaluates `dates[i-1]` with `i-1 = -1`: the program
panics before any prompt. -/
theorem selectDate_panics_at_first_index :
    lessChars "2022-01-03".data "2022-01-05".data = true ∧
    index [(⟨"", "2022-01-03", []⟩ : ImgData), ⟨"", "2022-01-01", []⟩] ((0 : Int) - 1) = none ∧
    selectDate [⟨"", "2022-01-03", []⟩, ⟨"", "2022-01-01", []⟩] "2022-01-05" [("0\n", none)]
      = .panicked := by
  decide

/-! ## The date argument of the frame fetch -/

/-- With a one-character separator the first piece of a split is the longest
prefix without the separator. -/
theorem splitFrom_single (sep : Char) : ∀ l : List Char,
    ∃ pieces, splitFrom [sep] l 0 = l.takeWhile (fun c => c != sep) :: pieces := by
  intro l
  induction l with
  | nil => exact ⟨[], rfl⟩
  | cons c cs ih =>
    obtain ⟨pieces, hp⟩ := ih
    by_cases hc : c = sep
    · subst hc
      refine ⟨splitFrom [c] cs 0, ?_⟩
      simp [splitFrom, List.isPrefixOf]
    · refine ⟨pieces, ?_⟩
      have hne : (sep == c) = false := by
        simp only [beq_eq_false_iff_ne, ne_eq]
        exact fun h => hc h.symm
      have hne2 : (c != sep) = true := by simpa using hc
      simp only [splitFrom, List.isPrefixOf, hne, Bool.false_and, hp]
      simp [List.takeWhile, hne2]

/-- With one-character arguments `ReplaceAll` maps the old character to the new one. -/
theorem replaceFrom_single (old new : Char) : ∀ l : List Char,
    replaceFrom [old] [new] l 0 = l.map (fun c => if c = old then new else c) := by
  intro l
  induction l with
  | nil => rfl
  | cons c cs ih =>
    by_cases hc : c = old
    · subst hc
      simp [replaceFrom, List.isPrefixOf, ih]
    · have hne : (old == c) = false := by
        simp only [beq_eq_false_iff_ne, ne_eq]
        exact fun h => hc h.symm
      simp [replaceFrom, List.isPrefixOf, hne, ih, hc]

/-- The date argument of the frame fetch, for every timestamp: the characters
before the first space, with every '-' turned into '/'. -/
theorem dateArg_eq (date : String) :
    dateArg date = String.mk
      ((date.data.takeWhile (fun c => c != ' ')).map (fun c => if c = '-' then '/' else c)) := by
  obtain ⟨pieces, hp⟩ := splitFrom_single ' ' date.data
  have hsplit : (Split date " ").headD "" = String.mk (date.data.takeWhile (fun c => c != ' ')) := by
    unfold Split
    have : (" " : String).data = [' '] := rfl
    rw [this, hp]
    rfl
  unfold dateArg ReplaceAll
  rw [hsplit]
  have h1 : ("-" : String).data = ['-'] := rfl
  have h2 : ("/" : String).data = ['/'] := rfl
  rw [h1, h2, replaceFrom_single]

theorem takeWhile_append_stop {α : Type} (p : α → Bool) (a b : List α) (x : α)
    (ha : ∀ c ∈ a, p c = true) (hx : p x = false) : (a ++ x :: b).takeWhile p = a := by
  induction a with
  | nil => simp [List.takeWhile, hx]
  | cons c cs ih =>
    have hc : p c = true := ha c (List.mem_cons_self _ _)
    have h := ih (fun d hd => ha d (List.mem_cons_of_mem _ hd))
    rw [List.cons_append, List.takeWhile_cons, hc, if_pos rfl, h]

theorem map_dash_of_digits (l : List Char) (h : ∀ c ∈ l, c.isDigit = true) :
    l.map (fun c => if c = '-' then '/' else c) = l := by
  induction l with
  | nil => rfl
  | cons c cs ih =>
    have hc : c ≠ '-' := by
      intro hEq
      have := h c (List.mem_cons_self _ _)
      rw [hEq] at this
      exact absurd this (by decide)
    simp only [List.map, hc, if_false]
    rw [ih (fun d hd => h d (List.mem_cons_of_mem _ hd))]

theorem digit_ne_space (l : List Char) (h : ∀ c ∈ l, c.isDigit = true) :
    ∀ c ∈ l, (c != ' ') = true := by
  intro c hc
  have hne : c ≠ ' ' := by
    intro hEq
    have := h c hc
    rw [hEq] at this
    exact absurd this (by decide)
  simpa using hne

/-- C7: for a timestamp of the catalog form "YYYY-MM-DD hh:mm:ss", every
identifier and every key, the date argument is "YYYY/MM/DD", and `GetPNG`, and
with it the call of the descriptor's goroutine, builds its request for the URL
"https://api.nasa.gov/EPIC/archive/natural/YYYY/MM/DD/png/<identifier>.png?api_key=<key>"
and sends it there with the content type `image/png`: its result is the
request error for that URL if there is one, else the transport error of the
request to that URL, else the body of the response from that URL. The date
argument is the part of the timestamp before the first space with every '-'
replaced by '/', and it holds neither a '-' nor a space. -/
theorem frame_fetch_url (H : Http) (key png Y M D hh mm ss : String)
    (hform : CatalogForm Y M D hh mm ss) :
    dateArg (timestamp Y M D hh mm ss) = Y ++ "/" ++ M ++ "/" ++ D ∧
    GetPNG H key png (dateArg (timestamp Y M D hh mm ss)) =
      (match H.NewRequestErr ("https://api.nasa.gov/EPIC/archive/natural/" ++ Y ++ "/" ++ M
          ++ "/" ++ D ++ "/png/" ++ png ++ ".png?api_key=" ++ key) with
        | some err => .error err
        | none =>
          match H.Do ("https://api.nasa.gov/EPIC/archive/natural/" ++ Y ++ "/" ++ M
            ++ "/" ++ D ++ "/png/" ++ png ++ ".png?api_key=" ++ key) "image/png" with
          | .error err => .error err
          | .ok res => res.Body) ∧
    (∀ bytes : Bytes, fetchCall H key ⟨png, timestamp Y M D hh mm ss, bytes⟩ =
      results
        (match H.NewRequestErr ("https://api.nasa.gov/EPIC/archive/natural/" ++ Y ++ "/" ++ M
            ++ "/" ++ D ++ "/png/" ++ png ++ ".png?api_key=" ++ key) with
          | some err => .error err
          | none =>
            match H.Do ("https://api.nasa.gov/EPIC/archive/natural/" ++ Y ++ "/" ++ M
              ++ "/" ++ D ++ "/png/" ++ png ++ ".png?api_key=" ++ key) "image/png" with
            | .error err => .error err
            | .ok res => res.Body)) ∧
    dateArg (timestamp Y M D hh mm ss) = String.mk
      (((timestamp Y M D hh mm ss).data.takeWhile (fun c => c != ' ')).map
        (fun c => if c = '-' then '/' else c)) ∧
    '-' ∉ (dateArg (timestamp Y M D hh mm ss)).data ∧
    ' ' ∉ (dateArg (timestamp Y M D hh mm ss)).data := by
  obtain ⟨⟨_, hY⟩, ⟨_, hM⟩, ⟨_, hD⟩, _⟩ := hform
  have hdata : (timestamp Y M D hh mm ss).data =
      (Y.data ++ '-' :: (M.data ++ '-' :: D.data)) ++ ' ' ::
        (hh.data ++ ':' :: (mm.data ++ ':' :: ss.data)) := by
    simp [timestamp, String.data_append]
  have hpre : ∀ c ∈ Y.data ++ '-' :: (M.data ++ '-' :: D.data), (c != ' ') = true := by
    intro c hc
    simp only [List.mem_append, List.mem_cons] at hc
    rcases hc with hc | hc | hc | hc | hc
    · exact digit_ne_space _ hY c hc
    · rw [hc]; decide
    · exact digit_ne_space _ hM c hc
    · rw [hc]; decide
    · exact digit_ne_space _ hD c hc
  have htake : (timestamp Y M D hh mm ss).data.takeWhile (fun c => c != ' ') =
      Y.data ++ '-' :: (M.data ++ '-' :: D.data) := by
    rw [hdata]
    exact takeWhile_append_stop _ _ _ ' ' hpre (by decide)
  have harg : dateArg (timestamp Y M D hh mm ss) = Y ++ "/" ++ M ++ "/" ++ D := by
    rw [dateArg_eq, htake]
    apply String.ext
    simp only [List.map_append, List.map_cons, map_dash_of_digits _ hY, map_dash_of_digits _ hM,
      map_dash_of_digits _ hD, String.data_append]
    simp
  have hmem : ∀ c, c.isDigit = false → c ≠ '/' →
      c ∉ (dateArg (timestamp Y M D hh mm ss)).data := by
    intro c hc hslash hin
    rw [harg] at hin
    simp only [String.data_append, List.mem_append] at hin
    simp only [List.mem_singleton] at hin
    rcases hin with (((hin | hin) | hin) | hin) | hin
    · rw [hY c hin] at hc; cases hc
    · exact hslash hin
    · rw [hM c hin] at hc; cases hc
    · exact hslash hin
    · rw [hD c hin] at hc; cases hc
  have hurl : pngURL key png (Y ++ "/" ++ M ++ "/" ++ D) =
      "https://api.nasa.gov/EPIC/archive/natural/" ++ Y ++ "/" ++ M ++ "/" ++ D ++ "/png/"
        ++ png ++ ".png?api_key=" ++ key := by
    simp [pngURL, String.append_assoc]
  have hget : GetPNG H key png (dateArg (timestamp Y M D hh mm ss)) =
      (match H.NewRequestErr ("https://api.nasa.gov/EPIC/archive/natural/" ++ Y ++ "/" ++ M
          ++ "/" ++ D ++ "/png/" ++ png ++ ".png?api_key=" ++ key) with
        | some err => .error err
        | none =>
          match H.Do ("https://api.nasa.gov/EPIC/archive/natural/" ++ Y ++ "/" ++ M
            ++ "/" ++ D ++ "/png/" ++ png ++ ".png?api_key=" ++ key) "image/png" with
          | .error err => .error err
          | .ok res => res.Body) := by
    rw [GetPNG_eq_get, harg, hurl, get_eq]
  refine ⟨harg, hget, ?_, ?_, hmem '-' (by decide) (by decide), hmem ' ' (by decide) (by decide)⟩
  · intro bytes
    unfold fetchCall
    dsimp only
    rw [hget]
  · rw [dateArg_eq]

/-- Witness of C7 on the timestamp "2022-01-01 00:10:00". -/
theorem frame_fetch_url_witness :
    dateArg (timestamp "2022" "01" "01" "00" "10" "00") = "2022" ++ "/" ++ "01" ++ "/" ++ "01" ∧
    GetPNG (demoNet 200 1) "k" "B" (dateArg (timestamp "2022" "01" "01" "00" "10" "00")) =
      (match (demoNet 200 1).NewRequestErr ("https://api.nasa.gov/EPIC/archive/natural/"
          ++ "2022" ++ "/" ++ "01" ++ "/" ++ "01" ++ "/png/" ++ "B" ++ ".png?api_key=" ++ "k") with
        | some err => .error err
        | none =>
          match (demoNet 200 1).Do ("https://api.nasa.gov/EPIC/archive/natural/" ++ "2022" ++ "/"
            ++ "01" ++ "/" ++ "01" ++ "/png/" ++ "B" ++ ".png?api_key=" ++ "k") "image/png" with
          | .error err => .error err
          | .ok res => res.Body) ∧
    (∀ bytes : Bytes,
      fetchCall (demoNet 200 1) "k" ⟨"B", timestamp "2022" "01" "01" "00" "10" "00", bytes⟩ =
      results
        (match (demoNet 200 1).NewRequestErr ("https://api.nasa.gov/EPIC/archive/natural/"
            ++ "2022" ++ "/" ++ "01" ++ "/" ++ "01" ++ "/png/" ++ "B" ++ ".png?api_key=" ++ "k") with
          | some err => .error err
          | none =>
            match (demoNet 200 1).Do ("https://api.nasa.gov/EPIC/archive/natural/" ++ "2022"
              ++ "/" ++ "01" ++ "/" ++ "01" ++ "/png/" ++ "B" ++ ".png?api_key=" ++ "k")
              "image/png" with
            | .error err => .error err
            | .ok res => res.Body)) ∧
    dateArg (timestamp "2022" "01" "01" "00" "10" "00") = String.mk
      (((timestamp "2022" "01" "01" "00" "10" "00").data.takeWhile (fun c => c != ' ')).map
        (fun c => if c = '-' then '/' else c)) ∧
    '-' ∉ (dateArg (timestamp "2022" "01" "01" "00" "10" "00")).data ∧
    ' ' ∉ (dateArg (timestamp "2022" "01" "01" "00" "10" "00")).data :=
  frame_fetch_url (demoNet 200 1) "k" "B" "2022" "01" "01" "00" "10" "00" (by
    simp only [CatalogForm, IsDigits]
    decide)

/-! ## A frame that does not decode -/

/-- A buffer that `gg.LoadPNG` rejects ends the frame loop with an error, when
there is a caption for every buffer. -/
theorem frameLoop_bad_buffer (E : Env I C P) (text : List String) :
    ∀ (vs : List Bytes) (i : Nat) (anim : GIF P) (fs : FS),
      (∃ v ∈ vs, ∃ err, E.LoadPNG (some v) = .error err) → i + vs.length ≤ text.length →
      ∃ e fs', frameLoop E text vs i anim fs = .returned e fs' := by
  intro vs
  induction vs with
  | nil => intro i anim fs h; simp at h
  | cons v rest ih =>
    intro i anim fs hbad hlen
    simp only [List.length_cons] at hlen
    simp only [frameLoop]
    cases hw : E.WriteFileErr "earth.png" v with
    | some err => exact ⟨_, _, rfl⟩
    | none =>
      have hi : i < text.length := by omega
      have ht : text[i]? = some text[i] := List.getElem?_eq_getElem hi
      simp only [ht]
      cases himg : TextOnImg E (writeFile fs "earth.png" v)
          ⟨"earth.png", "Helvetica.ttf", 100, text[i]⟩ with
      | error e => exact ⟨_, _, rfl⟩
      | ok img =>
        simp only
        apply ih
        · obtain ⟨w, hw', err, herr⟩ := hbad
          rcases List.mem_cons.1 hw' with hEq | hmem
          · subst hEq
            have := TextOnImg_of_LoadPNG_error E (writeFile fs "earth.png" w)
              ⟨"earth.png", "Helvetica.ttf", 100, text[i]⟩ err
              (by simpa [writeFile] using herr)
            rw [this] at himg
            cases himg
          · exact ⟨w, hmem, err, herr⟩
        · omega

theorem afterOpen_of_some (E : Env I C P) (fs : FS) (old : Bytes)
    (h : fs "earth.gif" = some old) : afterOpen E fs "earth.gif" = some old := by
  unfold afterOpen
  split
  · exact openCreate_of_some fs _ old h
  · exact h

/-- A call of `CreateGIF` with a buffer that `gg.LoadPNG` rejects returns an
error before the encoder is reached and leaves the bytes of `earth.gif` as the
open left them. -/
theorem CreateGIF_bad_buffer (E : Env I C P) (buf : List Bytes) (text : List String) (fs : FS)
    (hbad : ∃ v ∈ buf, ∃ err, E.LoadPNG (some v) = .error err)
    (hlen : buf.length ≤ text.length) :
    (∃ e, (CreateGIF E buf text fs).status = .returned (some e)) ∧
      (CreateGIF E buf text fs).encoded = none ∧
      (CreateGIF E buf text fs).fs "earth.gif" = afterOpen E fs "earth.gif" := by
  obtain ⟨e, fs', hloop⟩ := frameLoop_bad_buffer E text buf 0 (emptyAnim P buf) (afterOpen E fs)
    hbad (by omega)
  have hfs := frameLoop_fs E text "earth.gif" (by decide) buf 0 (emptyAnim P buf) (afterOpen E fs)
  rw [hloop] at hfs
  simp only [LoopResult.fs] at hfs
  unfold emptyAnim afterOpen at hloop
  unfold CreateGIF
  dsimp only
  rw [hloop]
  exact ⟨⟨e, rfl⟩, rfl, hfs⟩

/-- C4 fails on the code. First run: no `earth.gif`, both frame fetches answered
with status 404 and a body that is no PNG; the run is fatal, but `earth.gif`
now exists, empty. Second run: `earth.gif` holds 5 bytes, both fetches answered
with status 404 and a body that decodes; the run is not fatal and the file is
overwritten, it now starts with the GIF header. -/
theorem pipeline_404_touches_gif :
    is2xx 404 = false ∧
    (fun _ => none : FS) "earth.gif" = none ∧
    (pipeline (demoHttp 200 [] demoImgs) (fun _ => demoHttp 404 [60, 33] demoImgs) demoEnv
        "k" "" [1, 1, 1, 1, 0, 0, 0, 0] (fun _ => none)).exit
      = .fatal "TextOnImg:gg.LoadPNG: png: invalid format: not a PNG file" ∧
    (pipeline (demoHttp 200 [] demoImgs) (fun _ => demoHttp 404 [60, 33] demoImgs) demoEnv
        "k" "" [1, 1, 1, 1, 0, 0, 0, 0] (fun _ => none)).fs "earth.gif" = some [] ∧
    (pipeline (demoHttp 200 [] demoImgs) (demoNet 404) demoEnv "k" "" [1, 1, 1, 1, 0, 0, 0, 0]
        (onlyGif [1, 2, 3, 4, 5])).exit = .serving ∧
    ((pipeline (demoHttp 200 [] demoImgs) (demoNet 404) demoEnv "k" "" [1, 1, 1, 1, 0, 0, 0, 0]
        (onlyGif [1, 2, 3, 4, 5])).fs "earth.gif").map (List.take 6)
      = some [71, 73, 70, 56, 57, 97] := by
  decide

/-- C4 as amended: when the catalog query succeeds, every goroutine is scheduled
until it is done, in any interleaving, and one frame fetch is answered with a
status outside 2xx and a body that `gg.LoadPNG` rejects, the run ends in
`log.Fatal`, no animation reaches the encoder, and an `earth.gif` that existed
before the run holds the same bytes after it. -/
theorem pipeline_bad_frame (H0 : Http) (H : Nat → Http) (E : Env I C P) (key date : String)
    (sched : List Nat) (fs : FS) (imgs : List ImgData) (i : Nat) (im : ImgData)
    (res : Response) (b : Bytes) (err : GoError)
    (hnames : GetImgNames H0 key date = .ok imgs)
    (hfair : ∀ j, j < imgs.length → 4 ≤ sched.count j)
    (him : imgs[i]? = some im)
    (hreq : (H i).NewRequestErr (pngURL key im.Image (dateArg im.Date)) = none)
    (hdo : (H i).Do (pngURL key im.Image (dateArg im.Date)) "image/png" = .ok res)
    (hstatus : is2xx res.StatusCode = false)
    (hbody : res.Body = .ok b)
    (hpng : E.LoadPNG (some b) = .error err) :
    is2xx res.StatusCode = false ∧
    (∃ msg, (pipeline H0 H E key date sched fs).exit = .fatal msg) ∧
    (pipeline H0 H E key date sched fs).encoded = none ∧
    ∀ old, fs "earth.gif" = some old →
      (pipeline H0 H E key date sched fs).fs "earth.gif" = some old := by
  refine ⟨hstatus, ?_⟩
  have hget : GetPNG (H i) key im.Image (dateArg im.Date) = .ok b := by
    rw [GetPNG_eq_get]
    simp only [get, hreq, hdo, hbody]
  unfold pipeline
  rw [hnames]
  dsimp only
  cases hrun : runSchedule H key sched (initFetch imgs) with
  | error e => exact ⟨⟨_, rfl⟩, rfl, fun old hold => hold⟩
  | ok st =>
    dsimp only
    have hbarrier := barrier_of_fair H key imgs sched st hrun hfair
    rw [if_pos hbarrier]
    have hinv := Inv_run H key imgs sched _ st (Inv_init H key imgs) hrun
    have hrec := record_after_barrier H key imgs st hinv hbarrier i im him
    have hcall : (fetchCall (H i) key im).1 = b := by
      unfold fetchCall
      rw [hget]
      rfl
    rw [hcall] at hrec
    have hbad : ∃ v ∈ FieldSlice Bytes st.imgs "Bytes", ∃ err, E.LoadPNG (some v) = .error err := by
      refine ⟨b, ?_, err, hpng⟩
      rw [FieldSlice_Bytes]
      have hin : ({ im with Bytes := b } : ImgData) ∈ st.imgs := List.getElem?_mem hrec
      exact List.mem_map.2 ⟨_, hin, rfl⟩
    have hlens : (FieldSlice Bytes st.imgs "Bytes").length ≤
        (FieldSlice String st.imgs "Date").length := by
      rw [FieldSlice_Bytes, FieldSlice_Date]
      simp
    obtain ⟨⟨e, hst⟩, henc, hfs⟩ := CreateGIF_bad_buffer E _ _ fs hbad hlens
    unfold afterCreate
    rw [hst]
    dsimp only
    refine ⟨⟨_, rfl⟩, henc, ?_⟩
    intro old hold
    rw [hfs]
    exact afterOpen_of_some E fs old hold

/-- Witness of the amended C4: two frames, both fetches answered with status
404 and a body that is no PNG, over an `earth.gif` of 5 bytes. -/
theorem pipeline_bad_frame_witness :
    is2xx 404 = false ∧
    (∃ msg, (pipeline (demoHttp 200 [] demoImgs) (fun _ => demoHttp 404 [60, 33] demoImgs) demoEnv
      "k" "" [1, 0, 1, 0, 1, 0, 1, 0] (onlyGif [1, 2, 3, 4, 5])).exit = .fatal msg) ∧
    (pipeline (demoHttp 200 [] demoImgs) (fun _ => demoHttp 404 [60, 33] demoImgs) demoEnv
      "k" "" [1, 0, 1, 0, 1, 0, 1, 0] (onlyGif [1, 2, 3, 4, 5])).encoded = none ∧
    ∀ old, onlyGif [1, 2, 3, 4, 5] "earth.gif" = some old →
      (pipeline (demoHttp 200 [] demoImgs) (fun _ => demoHttp 404 [60, 33] demoImgs) demoEnv
        "k" "" [1, 0, 1, 0, 1, 0, 1, 0] (onlyGif [1, 2, 3, 4, 5])).fs "earth.gif" = some old :=
  pipeline_bad_frame (demoHttp 200 [] demoImgs) (fun _ => demoHttp 404 [60, 33] demoImgs) demoEnv
    "k" "" [1, 0, 1, 0, 1, 0, 1, 0] (onlyGif [1, 2, 3, 4, 5]) demoImgs 0
    ⟨"A", "2022-01-01 00:00:00", []⟩
    ⟨404, .ok [60, 33]⟩ [60, 33] (.lib "png: invalid format: not a PNG file")
    (by rfl) (by decide) (by decide) (by rfl) (by rfl) (by decide) (by rfl) (by rfl)

end EarthGif
